import Mathlib

/-! StemCell timer controller: a shallow embedding of `src/timer_controller.cpp`.

The controller keeps a binary heap of timer tasks ordered by absolute deadline,
a FIFO submission queue filled by `addTimerTask`, and one OS timer that
`refreshTimer` re-arms.  The embedding below follows the C++ source function by
function.

Modelling conventions.

* `timespec` fields and the `int64_t` locals are mathematical integers (`Int`);
  C++ `/` and `%` are `Int.tdiv` and `Int.tmod` (truncation toward zero).
* A system call that fails makes the C++ code throw, which ends the loop thread;
  a function that can throw returns `Option`, with `none` for the throw.  The
  results of the system calls come from an environment `Env`, indexed by the
  number of system calls made so far.
* Tasks are values: a `TimerTaskPtr` held in a container is the task it points
  to.  Invoking the callback `fun()` is recorded in the log `fired`; calling
  `refreshTimer(task)` is recorded in the log `refreshed`.
* `std::push_heap` and `std::pop_heap` follow the libstdc++ algorithms
  (`__push_heap`, `__adjust_heap`, `__pop_heap`).
-/

namespace StemCell

/-! ## Data model -/

/-- POSIX `struct timespec`. -/
structure Timespec where
  tv_sec : Int
  tv_nsec : Int
deriving DecidableEq, Inhabited

/-- POSIX `struct itimerspec`. -/
structure Itimerspec where
  it_interval : Timespec
  it_value : Timespec
deriving DecidableEq, Inhabited

/-- The task record behind `TimerTaskPtr`: callback `fun` (an identifier that stands for it,
`none` when cleared), `interval` in milliseconds, the recurrence flag
`is_cycle`, `create_time` and the deadline `expect_time`. -/
structure TimerTask where
  fun_ : Option Nat
  interval : Int
  is_cycle : Bool
  create_time : Timespec
  expect_time : Timespec
deriving DecidableEq, Inhabited

/-- Results of the system calls and the two eventfd constants of the header.
Index `n` is the number of system calls the controller has made before. -/
structure Env where
  EVENT_ADD_TASK : Nat
  EVENT_STOP : Nat
  clock_gettime : Nat → Option Timespec
  timerfd_settime : Nat → Bool
  epoll_ctl : Nat → Bool
  eventfd_write : Nat → Bool
  eventfd : Nat → Int := fun _ => 3
  timerfd_create : Nat → Int := fun _ => 4
  epoll_create1 : Nat → Int := fun _ => 5

/-- The state of `TimerController` that the loop thread and `addTimerTask` touch,
with the armed timer (`itimer`), the eventfd counter and the two logs.  The
descriptors registered with epoll are in `registered`, `loop_threads` counts the
threads started on `loop()`, and `closed` records a call of `close()`. -/
structure TimerController where
  _initialized : Bool := false
  _stop : Bool := false
  _timer_task_heap : List TimerTask := []
  _timer_task_queue : List TimerTask := []
  _timer_task_pool : List TimerTask := []
  eventfd_counter : Nat := 0
  itimer : Option Itimerspec := none
  refreshed : List TimerTask := []
  fired : List TimerTask := []
  syscalls : Nat := 0
  _eventfd : Int := -1
  _timerfd : Int := -1
  _epollfd : Int := -1
  registered : List Int := []
  loop_threads : Nat := 0
  closed : Bool := false

/-- Absolute time of a `timespec` in nanoseconds. -/
def Timespec.toNanos (t : Timespec) : Int :=
  t.tv_sec * 1000000000 + t.tv_nsec

/-! ## Comparators (lines 14-22) -/

/-- `TimerTaskComp(a, b)`, lines 14-18. -/
def TimerTaskComp (a b : TimerTask) : Bool :=
  if a.expect_time.tv_sec = b.expect_time.tv_sec then
    decide (a.expect_time.tv_nsec > b.expect_time.tv_nsec)
  else
    decide (a.expect_time.tv_sec > b.expect_time.tv_sec)

/-- `TimerTaskEarlierComp(a, b)`, lines 20-22. -/
def TimerTaskEarlierComp (a b : TimerTask) : Bool :=
  !TimerTaskComp a b

/-! ## `addTimerTask` (lines 124-151) -/

/-- Lines 137-142 of `addTimerTask`: the deadline computed from `base_time` and
the interval `delay_time` (milliseconds). -/
def addTimerTask_expect_time (base_time : Timespec) (delay_time : Int) : Timespec :=
  let second := delay_time.tdiv 1000
  let narosecond := (delay_time.tmod 1000) * 1000000
  let delta := (narosecond + base_time.tv_nsec).tdiv 1000000000
  { tv_sec := base_time.tv_sec + second + delta
    tv_nsec := (narosecond + base_time.tv_nsec).tmod 1000000000 }

/-- Lines 137-150 of `addTimerTask`: set the deadline, push the task on the
submission queue, write `EVENT_ADD_TASK` to the eventfd. -/
def addTimerTask_submit (env : Env) (s : TimerController) (timer_task : TimerTask)
    (base_time : Timespec) : Option (TimerTask × TimerController) :=
  let task := { timer_task with
    expect_time := addTimerTask_expect_time base_time timer_task.interval }
  if env.eventfd_write s.syscalls then
    some (task, { s with
      _timer_task_queue := s._timer_task_queue ++ [task]
      eventfd_counter := s.eventfd_counter + env.EVENT_ADD_TASK
      syscalls := s.syscalls + 1 })
  else
    none

/-- `TimerController::addTimerTask`, lines 124-151.  Returns the task as the call
leaves it together with the new controller state. -/
def addTimerTask (env : Env) (s : TimerController) (timer_task : TimerTask) :
    Option (TimerTask × TimerController) :=
  if timer_task.create_time.tv_sec = 0 ∧ timer_task.create_time.tv_nsec = 0 then
    match env.clock_gettime s.syscalls with
    | none => none
    | some base_time =>
      addTimerTask_submit env { s with syscalls := s.syscalls + 1 }
        { timer_task with
          create_time := { tv_sec := base_time.tv_nsec, tv_nsec := base_time.tv_nsec } }
        base_time
  else
    addTimerTask_submit env s timer_task timer_task.expect_time

/-! ## `refreshTimer` (lines 153-194) -/

/-- Lines 161-179 of `refreshTimer`: the initial delay `it_value`. -/
def refreshTimer_it_value (expect_time now : Timespec) : Timespec :=
  if expect_time.tv_sec < now.tv_sec ∨
      (expect_time.tv_sec = now.tv_sec ∧ expect_time.tv_nsec ≤ now.tv_nsec) then
    { tv_sec := 0, tv_nsec := 1 }
  else
    let sec := expect_time.tv_sec - now.tv_sec
    let nsec := expect_time.tv_nsec - now.tv_nsec
    if nsec < 0 then
      { tv_sec := sec - 1, tv_nsec := 1000000000 + nsec }
    else
      { tv_sec := sec, tv_nsec := nsec }

/-- `TimerController::refreshTimer`, lines 153-194. -/
def refreshTimer (env : Env) (s : TimerController) (task : TimerTask) :
    Option TimerController :=
  match env.clock_gettime s.syscalls with
  | none => none
  | some now =>
    let new_itimer : Itimerspec :=
      { it_value := refreshTimer_it_value task.expect_time now
        it_interval := { tv_sec := 0, tv_nsec := 1000000 } }
    if env.timerfd_settime (s.syscalls + 1) then
      if env.epoll_ctl (s.syscalls + 2) then
        some { s with
          itimer := some new_itimer
          refreshed := s.refreshed ++ [task]
          syscalls := s.syscalls + 3 }
      else
        none
    else
      none

/-! ## Heap algorithms of the standard library

`std::push_heap` and `std::pop_heap` as libstdc++ implements them, on a list
that stands for the vector `[first, last)`.  The loops run on a fuel argument
that the callers set to a bound on the number of iterations (the hole index for
`__push_heap`, the length for the descent of `__adjust_heap`). -/

section Heap

variable {α : Type} [Inhabited α]

/-- libstdc++ `__push_heap(first, holeIndex, topIndex, value, comp)`: move the
hole up while its parent is `comp`-less than `value`, then store `value`. -/
def __push_heap (comp : α → α → Bool) (value : α) (topIndex : Nat) :
    Nat → List α → Nat → List α
  | 0, first, holeIndex => first.set holeIndex value
  | fuel + 1, first, holeIndex =>
    let parent := (holeIndex - 1) / 2
    if holeIndex > topIndex ∧ comp (first.getD parent default) value = true then
      __push_heap comp value topIndex fuel
        (first.set holeIndex (first.getD parent default)) parent
    else
      first.set holeIndex value

/-- `std::push_heap(first, last, comp)`: the element at `last - 1` is pushed
into the heap `[first, last - 1)`. -/
def push_heap (comp : α → α → Bool) (v : List α) : List α :=
  let value := v.getD (v.length - 1) default
  __push_heap comp value 0 (v.length - 1) v (v.length - 1)

/-- The `while (secondChild < (len - 1) / 2)` loop of libstdc++ `__adjust_heap`:
the hole moves down to its `comp`-greater child.  Returns the vector and the
final hole index. -/
def __adjust_heap_descend (comp : α → α → Bool) (len : Nat) :
    Nat → List α → Nat → List α × Nat
  | 0, first, secondChild => (first, secondChild)
  | fuel + 1, first, secondChild =>
    if secondChild < (len - 1) / 2 then
      let holeIndex := secondChild
      let right := 2 * (secondChild + 1)
      let child :=
        if comp (first.getD right default) (first.getD (right - 1) default) = true then
          right - 1
        else
          right
      __adjust_heap_descend comp len fuel
        (first.set holeIndex (first.getD child default)) child
    else
      (first, secondChild)

/-- libstdc++ `__adjust_heap(first, holeIndex, len, value, comp)`. -/
def __adjust_heap (comp : α → α → Bool) (first : List α) (holeIndex len : Nat)
    (value : α) : List α :=
  let topIndex := holeIndex
  let r := __adjust_heap_descend comp len len first holeIndex
  if len % 2 = 0 ∧ r.2 = (len - 2) / 2 then
    let secondChild := 2 * (r.2 + 1)
    __push_heap comp value topIndex (secondChild - 1)
      (r.1.set r.2 (r.1.getD (secondChild - 1) default)) (secondChild - 1)
  else
    __push_heap comp value topIndex r.2 r.1 r.2

/-- libstdc++ `__pop_heap(first, last, result, comp)` with `last` and `result`
given as indices. -/
def __pop_heap (comp : α → α → Bool) (first : List α) (last result : Nat) : List α :=
  let value := first.getD result default
  __adjust_heap comp (first.set result (first.getD 0 default)) 0 last value

/-- `std::pop_heap(first, last, comp)`: the front goes to `last - 1` and
`[first, last - 1)` is made a heap again. -/
def pop_heap (comp : α → α → Bool) (v : List α) : List α :=
  if v.length > 1 then
    __pop_heap comp v (v.length - 1) (v.length - 1)
  else
    v

/-- `std::is_heap(first, first + n, comp)` on the first `n` elements: no element
is `comp`-greater than its parent. -/
def is_heap (comp : α → α → Bool) (v : List α) (n : Nat) : Bool :=
  (List.range n).all fun i =>
    i = 0 || !comp (v.getD ((i - 1) / 2) default) (v.getD i default)

/-- The `while (true)` loop of libstdc++ `__make_heap`, from `parent` down
to 0. -/
def __make_heap_loop (comp : α → α → Bool) (len : Nat) : Nat → List α → List α
  | 0, first => __adjust_heap comp first 0 len (first.getD 0 default)
  | parent + 1, first =>
    __make_heap_loop comp len parent
      (__adjust_heap comp first (parent + 1) len (first.getD (parent + 1) default))

/-- `std::make_heap(first, last, comp)`. -/
def make_heap (comp : α → α → Bool) (v : List α) : List α :=
  if v.length < 2 then
    v
  else
    __make_heap_loop comp v.length ((v.length - 2) / 2) v

end Heap

/-! ## Task pool -/

/-- Modelled from the spec: `TimerTask::reset` is declared in the header, which
is not part of the sources.  Section 4.5: the callback, the timestamps and the
recurrence flag are cleared. -/
def TimerTask.reset (t : TimerTask) : TimerTask :=
  { t with
    fun_ := none
    is_cycle := false
    create_time := { tv_sec := 0, tv_nsec := 0 }
    expect_time := { tv_sec := 0, tv_nsec := 0 } }

/-- Modelled from the spec: the pool `recycle` is declared in the header, which
is not part of the sources.  Section 4.5: the task is cleared and returned to
the free list. -/
def recycle (pool : List TimerTask) (t : TimerTask) : List TimerTask :=
  pool ++ [t.reset]

/-! ## `custTimerTask` (lines 196-218) -/

/-- Lines 207-216: one pass of the loop body for the task just taken from the
queue. -/
def custTimerTask_insert (env : Env) (s : TimerController) (task : TimerTask) :
    Option TimerController :=
  let r :=
    match s._timer_task_heap with
    | earliestTimerTask :: _ =>
      if TimerTaskEarlierComp task earliestTimerTask = true then
        refreshTimer env s task
      else
        some s
    | [] => refreshTimer env s task
  match r with
  | none => none
  | some s1 =>
    some { s1 with
      _timer_task_heap := push_heap TimerTaskComp (s1._timer_task_heap ++ [task]) }

/-- The `for(;;)` loop of `custTimerTask`; `fuel` bounds the number of passes. -/
def custTimerTask_loop (env : Env) : Nat → TimerController → Option TimerController
  | 0, s => some s
  | fuel + 1, s =>
    match s._timer_task_queue with
    | [] => some s
    | task :: rest =>
      match custTimerTask_insert env { s with _timer_task_queue := rest } task with
      | none => none
      | some s1 => custTimerTask_loop env fuel s1

/-- `TimerController::custTimerTask`, lines 196-218.  Each pass removes one task
from the queue, so the queue length bounds the number of passes. -/
def custTimerTask (env : Env) (s : TimerController) : Option TimerController :=
  custTimerTask_loop env s._timer_task_queue.length s

/-! ## `execEarliestTimerTask` (lines 220-238) -/

/-- Lines 228-233: after the callback, a recurring task is submitted again and a
one-shot task is reset and recycled. -/
def execEarliestTimerTask_after (env : Env) (s : TimerController)
    (earliestTimerTask : TimerTask) : Option TimerController :=
  if earliestTimerTask.is_cycle = true then
    match addTimerTask env s earliestTimerTask with
    | none => none
    | some r => some r.2
  else
    some { s with
      _timer_task_pool := recycle s._timer_task_pool earliestTimerTask.reset }

/-- `TimerController::execEarliestTimerTask`, lines 220-238. -/
def execEarliestTimerTask (env : Env) (s : TimerController) : Option TimerController :=
  match s._timer_task_heap with
  | [] => some s
  | earliestTimerTask :: _ =>
    let s1 := { s with
      _timer_task_heap := (pop_heap TimerTaskComp s._timer_task_heap).dropLast
      fired := s.fired ++ [earliestTimerTask] }
    match execEarliestTimerTask_after env s1 earliestTimerTask with
    | none => none
    | some s2 =>
      match s2._timer_task_heap with
      | [] => some s2
      | front :: _ => refreshTimer env s2 front

/-! ## `init` (lines 24-91) -/

/-- Lines 58-90 of `init`: create the epoll instance, register the two
descriptors, make the heap, start the loop thread. -/
def init_epoll (env : Env) (s : TimerController) : Option (Bool × TimerController) :=
  let s1 := { s with _epollfd := env.epoll_create1 s.syscalls, syscalls := s.syscalls + 1 }
  if s1._epollfd < 0 then
    none
  else if env.epoll_ctl s1.syscalls = false then
    none
  else if env.epoll_ctl (s1.syscalls + 1) = false then
    none
  else
    some (true, { s1 with
      registered := s1.registered ++ [s1._eventfd, s1._timerfd]
      syscalls := s1.syscalls + 2
      _timer_task_heap := make_heap TimerTaskComp s1._timer_task_heap
      loop_threads := s1.loop_threads + 1
      _initialized := true })

/-- `TimerController::init`, lines 24-91.  Starting the loop thread is counted in
`loop_threads`. -/
def init (env : Env) (s : TimerController) : Option (Bool × TimerController) :=
  if s._initialized = true then
    some (true, s)
  else
    let s1 := { s with
      _stop := false
      _eventfd := env.eventfd s.syscalls
      syscalls := s.syscalls + 1 }
    if s1._eventfd < 0 then
      none
    else
      let s2 := { s1 with
        _timerfd := env.timerfd_create s1.syscalls
        syscalls := s1.syscalls + 1 }
      if s2._timerfd < 0 then
        none
      else if env.timerfd_settime s2.syscalls = false then
        none
      else
        init_epoll env { s2 with
          itimer := some
            { it_value := { tv_sec := 1, tv_nsec := 0 }
              it_interval := { tv_sec := 0, tv_nsec := 1000000 } }
          syscalls := s2.syscalls + 1 }

/-! ## `loop` (lines 93-122) -/

/-- Modelled from the spec: `TimerController::close` is declared in the header,
which is not part of the sources.  Section 4.1: it releases all primitives. -/
def close (s : TimerController) : TimerController :=
  { s with closed := true }

/-- One `epoll_event` returned by `epoll_wait`: the descriptor `data.fd`, and for
the eventfd what other threads have written to it since it was last read. -/
structure Event where
  fd : Int
  written : Nat
deriving DecidableEq, Inhabited

/-- One return of `epoll_wait`: a negative count (with `errno == EINTR` or not),
or the ready events. -/
inductive Wake where
  | failed (eintr : Bool)
  | ready (evnts : List Event)

/-- Lines 106-119: the body of the `for` loop for one event.  The flag in the
result is `true` when `loop` has returned. -/
def loop_event (env : Env) (s : TimerController) (e : Event) :
    Option (Bool × TimerController) :=
  let r1 : Option (Bool × TimerController) :=
    if e.fd = s._eventfd then
      let val := s.eventfd_counter + e.written
      let s1 := { s with eventfd_counter := 0, syscalls := s.syscalls + 1 }
      if val ≥ env.EVENT_STOP then
        some (true, close s1)
      else
        match custTimerTask env s1 with
        | none => none
        | some s2 => some (false, s2)
    else
      some (false, s)
  match r1 with
  | none => none
  | some (true, s1) => some (true, s1)
  | some (false, s1) =>
    if e.fd = s1._timerfd then
      match execEarliestTimerTask env s1 with
      | none => none
      | some s2 => some (false, s2)
    else
      some (false, s1)

/-- Lines 105-120: the `for` loop over the ready events. -/
def loop_for (env : Env) : List Event → TimerController → Option (Bool × TimerController)
  | [], s => some (false, s)
  | e :: rest, s =>
    match loop_event env s e with
    | none => none
    | some (true, s1) => some (true, s1)
    | some (false, s1) => loop_for env rest s1

/-- `TimerController::loop`, lines 93-122, run on the returns of `epoll_wait`
given in the list.  The flag in the result is `true` when `loop` has returned
and `false` when it is blocked in the next `epoll_wait`. -/
def loop (env : Env) : List Wake → TimerController → Option (Bool × TimerController)
  | [], s => some (s._stop, s)
  | w :: ws, s =>
    if s._stop = true then
      some (true, s)
    else
      match w with
      | Wake.failed eintr =>
        if eintr = true then
          loop env ws { s with syscalls := s.syscalls + 1 }
        else
          none
      | Wake.ready evnts =>
        match loop_for env evnts { s with syscalls := s.syscalls + 1 } with
        | none => none
        | some (true, s1) => some (true, s1)
        | some (false, s1) => loop env ws s1

/-! ## Predicates used in the statements -/

/-- The sub-second field is within one second: `0 <= tv_nsec < 10^9`. -/
def Timespec.normalized (t : Timespec) : Prop :=
  0 ≤ t.tv_nsec ∧ t.tv_nsec < 1000000000

instance (t : Timespec) : Decidable t.normalized := by
  unfold Timespec.normalized
  infer_instance

/-- Every system call succeeds: no function of the controller throws. -/
def Env.succeeds (env : Env) : Prop :=
  ∀ n, (env.clock_gettime n).isSome = true ∧ env.timerfd_settime n = true ∧
    env.epoll_ctl n = true ∧ env.eventfd_write n = true

/-- Every clock reading has `0 <= tv_nsec < 10^9`. -/
def Env.clock_normalized (env : Env) : Prop :=
  ∀ n now, env.clock_gettime n = some now → now.normalized

/-- The same task submitted again and again: one `addTimerTask` call per entry
of the list, each in its own environment and controller state; the task that a
call leaves is the task the next call receives. -/
def resubmit : List (Env × TimerController) → TimerTask → Option TimerTask
  | [], task => some task
  | (env, s) :: rest, task =>
    match addTimerTask env s task with
    | none => none
    | some r => resubmit rest r.1

/-- An environment in which every system call succeeds and the clock always
reads `now`. -/
def Env.const (now : Timespec) : Env :=
  { EVENT_ADD_TASK := 1
    EVENT_STOP := 2
    clock_gettime := fun _ => some now
    timerfd_settime := fun _ => true
    epoll_ctl := fun _ => true
    eventfd_write := fun _ => true }

/-- A one-shot task with the given interval and no timestamps yet. -/
def TimerTask.fresh (f : Nat) (interval : Int) (is_cycle : Bool) : TimerTask :=
  { fun_ := some f
    interval := interval
    is_cycle := is_cycle
    create_time := { tv_sec := 0, tv_nsec := 0 }
    expect_time := { tv_sec := 0, tv_nsec := 0 } }

/-- The comparator is a strict weak order, seen from `comp a b = false`
(`a` is not below `b`): it is asymmetric, and "not below" is transitive. -/
structure CompOrder {α : Type} (comp : α → α → Bool) : Prop where
  asymm : ∀ a b, comp a b = true → comp b a = false
  trans : ∀ a b c, comp a b = false → comp b c = false → comp a c = false

/-- Heap order on the first `n` elements: no element is `comp`-greater than its
parent.  This is the property form of `is_heap`. -/
def HeapUpTo {α : Type} [Inhabited α] (comp : α → α → Bool) (v : List α) (n : Nat) : Prop :=
  ∀ i, 0 < i → i < n → comp (v.getD ((i - 1) / 2) default) (v.getD i default) = false

/-- Deadline `a` is at or before deadline `b`, lexicographic on `tv_sec`, then
`tv_nsec`. -/
def Timespec.notLater (a b : Timespec) : Prop :=
  a.tv_sec < b.tv_sec ∨ (a.tv_sec = b.tv_sec ∧ a.tv_nsec ≤ b.tv_nsec)

instance (a b : Timespec) : Decidable (a.notLater b) := by
  unfold Timespec.notLater
  infer_instance

/-- Deadline `a` is strictly before deadline `b`, lexicographic on `tv_sec`, then
`tv_nsec`. -/
def Timespec.earlier (a b : Timespec) : Prop :=
  a.tv_sec < b.tv_sec ∨ (a.tv_sec = b.tv_sec ∧ a.tv_nsec < b.tv_nsec)

instance (a b : Timespec) : Decidable (a.earlier b) := by
  unfold Timespec.earlier
  infer_instance

/-- The heap of the controller is in heap order under `TimerTaskComp`. -/
def TimerController.heap_ordered (s : TimerController) : Prop :=
  is_heap TimerTaskComp s._timer_task_heap s._timer_task_heap.length = true

instance (s : TimerController) : Decidable s.heap_ordered := by
  unfold TimerController.heap_ordered
  infer_instance

/-- The timer follows the heap: if the heap is non-empty, the deadline of the
task last passed to `refreshTimer` is the minimum deadline in the heap. -/
def TimerController.timer_tracks_minimum (s : TimerController) : Prop :=
  s._timer_task_heap ≠ [] →
    ∃ r, s.refreshed.getLast? = some r ∧
      (∃ m ∈ s._timer_task_heap, m.expect_time = r.expect_time) ∧
      ∀ u ∈ s._timer_task_heap, r.expect_time.notLater u.expect_time

/-- Successive calls of `execEarliestTimerTask` with nothing in between. -/
def execEarliestTimerTask_repeat (env : Env) : Nat → TimerController → Option TimerController
  | 0, s => some s
  | k + 1, s =>
    match execEarliestTimerTask env s with
    | none => none
    | some s1 => execEarliestTimerTask_repeat env k s1

/-- A one-shot task that is already scheduled, with deadline `sec` s `nsec` ns. -/
def TimerTask.due (f : Nat) (sec nsec : Int) : TimerTask :=
  { fun_ := some f
    interval := 0
    is_cycle := false
    create_time := { tv_sec := 1, tv_nsec := 1 }
    expect_time := { tv_sec := sec, tv_nsec := nsec } }

/-- A controller with three tasks in the heap (deadlines 1 s, 3 s, 2 s) and two
in the submission queue (deadlines 0 s 5 ns and 2 s). -/
def TimerController.sample : TimerController :=
  { _timer_task_heap := [TimerTask.due 1 1 0, TimerTask.due 2 3 0, TimerTask.due 3 2 0]
    _timer_task_queue := [TimerTask.due 4 0 5, TimerTask.due 5 2 0]
    refreshed := [TimerTask.due 1 1 0] }

/-- The descriptors that `init` creates are valid (not negative). -/
def Env.creates_descriptors (env : Env) : Prop :=
  ∀ n, 0 ≤ env.eventfd n ∧ 0 ≤ env.timerfd_create n ∧ 0 ≤ env.epoll_create1 n

/-- A step of the loop thread: a drain (`custTimerTask`) or a fire
(`execEarliestTimerTask`). -/
inductive LoopStep where
  | drain
  | fire
deriving DecidableEq

/-- The loop thread takes the steps of the list, one after the other, with no
submission from another thread in between. -/
def runSteps (env : Env) : List LoopStep → TimerController → Option TimerController
  | [], s => some s
  | LoopStep.drain :: rest, s =>
    match custTimerTask env s with
    | none => none
    | some s1 => runSteps env rest s1
  | LoopStep.fire :: rest, s =>
    match execEarliestTimerTask env s with
    | none => none
    | some s1 => runSteps env rest s1

/-- A `timespec` is strictly positive: not negative and not (0 s, 0 ns). -/
def Timespec.positive (t : Timespec) : Prop :=
  0 ≤ t.tv_sec ∧ 0 ≤ t.tv_nsec ∧ (0 < t.tv_sec ∨ 0 < t.tv_nsec)

instance (t : Timespec) : Decidable t.positive := by
  unfold Timespec.positive
  infer_instance

/-- The task as `addTimerTask` leaves it on a re-submission: the deadline moved
on by the interval (lines 135-142). -/
def TimerTask.next (t : TimerTask) : TimerTask :=
  { t with expect_time := addTimerTask_expect_time t.expect_time t.interval }

/-- Six rounds of the loop thread, each a drain followed by a fire. -/
def LoopStep.six_rounds : List LoopStep :=
  [LoopStep.drain, LoopStep.fire, LoopStep.drain, LoopStep.fire, LoopStep.drain,
    LoopStep.fire, LoopStep.drain, LoopStep.fire, LoopStep.drain, LoopStep.fire,
    LoopStep.drain, LoopStep.fire]

/-! ## Deadline arithmetic -/

theorem Env.const_succeeds (now : Timespec) : (Env.const now).succeeds := by
  intro n
  exact ⟨rfl, rfl, rfl, rfl⟩

theorem Env.const_clock_normalized (now : Timespec) (h : now.normalized) :
    (Env.const now).clock_normalized := by
  intro n t ht
  simp only [Env.const, Option.some.injEq] at ht
  exact ht ▸ h

/-- The deadline of lines 137-142 is `base_time` plus the interval, in
nanoseconds, for a non-negative interval and sub-second field. -/
theorem expect_time_toNanos (base_time : Timespec) (delay_time : Int)
    (hI : 0 ≤ delay_time) (hb : 0 ≤ base_time.tv_nsec) :
    (addTimerTask_expect_time base_time delay_time).toNanos
      = base_time.toNanos + delay_time * 1000000 := by
  have h1 : (0 : Int) ≤ delay_time % 1000 * 1000000 + base_time.tv_nsec := by
    have := Int.emod_nonneg delay_time (by norm_num : (1000 : Int) ≠ 0)
    omega
  simp only [addTimerTask_expect_time, Timespec.toNanos]
  rw [Int.tdiv_eq_ediv hI (by norm_num), Int.tmod_eq_emod hI (by norm_num),
    Int.tdiv_eq_ediv h1 (by norm_num), Int.tmod_eq_emod h1 (by norm_num)]
  omega

/-- The deadline of lines 137-142 has its sub-second field within one second. -/
theorem expect_time_normalized (base_time : Timespec) (delay_time : Int)
    (hI : 0 ≤ delay_time) (hb : 0 ≤ base_time.tv_nsec) :
    (addTimerTask_expect_time base_time delay_time).normalized := by
  have h1 : (0 : Int) ≤ delay_time % 1000 * 1000000 + base_time.tv_nsec := by
    have := Int.emod_nonneg delay_time (by norm_num : (1000 : Int) ≠ 0)
    omega
  simp only [addTimerTask_expect_time, Timespec.normalized]
  rw [Int.tmod_eq_emod hI (by norm_num), Int.tmod_eq_emod h1 (by norm_num)]
  omega

/-- With an unset create-time `addTimerTask` reads the clock and chains off it. -/
theorem addTimerTask_unset (env : Env) (s : TimerController) (task : TimerTask)
    (now : Timespec)
    (hunset : task.create_time.tv_sec = 0 ∧ task.create_time.tv_nsec = 0)
    (hclock : env.clock_gettime s.syscalls = some now)
    (hwrite : env.eventfd_write (s.syscalls + 1) = true) :
    ∃ r, addTimerTask env s task = some r ∧
      r.1 = { task with
        create_time := { tv_sec := now.tv_nsec, tv_nsec := now.tv_nsec }
        expect_time := addTimerTask_expect_time now task.interval } ∧
      r.2 = { s with
        _timer_task_queue := s._timer_task_queue ++ [r.1]
        eventfd_counter := s.eventfd_counter + env.EVENT_ADD_TASK
        syscalls := s.syscalls + 2 } := by
  simp [addTimerTask, addTimerTask_submit, hunset, hclock, hwrite]

/-- With a set create-time `addTimerTask` chains off the previous deadline. -/
theorem addTimerTask_set (env : Env) (s : TimerController) (task : TimerTask)
    (hset : ¬ (task.create_time.tv_sec = 0 ∧ task.create_time.tv_nsec = 0))
    (hwrite : env.eventfd_write s.syscalls = true) :
    ∃ r, addTimerTask env s task = some r ∧
      r.1 = { task with
        expect_time := addTimerTask_expect_time task.expect_time task.interval } ∧
      r.2 = { s with
        _timer_task_queue := s._timer_task_queue ++ [r.1]
        eventfd_counter := s.eventfd_counter + env.EVENT_ADD_TASK
        syscalls := s.syscalls + 1 } := by
  simp [addTimerTask, addTimerTask_submit, hset, hwrite]

/-! ## Claims C1 to C4: the deadline set by `addTimerTask` -/

/-- C1: for a task whose create-time is unset, every interval `I >= 0` and every
clock reading `now` with `0 <= now.tv_nsec < 10^9`, `addTimerTask` returns, and
the deadline it sets satisfies
`expect_time.tv_sec * 10^9 + expect_time.tv_nsec
  = now.tv_sec * 10^9 + now.tv_nsec + I * 10^6`; the task with that deadline is
what it appends to the submission queue. -/
theorem addTimerTask_deadline_from_now (env : Env) (s : TimerController)
    (task : TimerTask) (now : Timespec)
    (hunset : task.create_time.tv_sec = 0 ∧ task.create_time.tv_nsec = 0)
    (hI : 0 ≤ task.interval)
    (hclock : env.clock_gettime s.syscalls = some now)
    (hnow : 0 ≤ now.tv_nsec ∧ now.tv_nsec < 1000000000)
    (hwrite : env.eventfd_write (s.syscalls + 1) = true) :
    ∃ r, addTimerTask env s task = some r ∧
      r.1.expect_time.tv_sec * 1000000000 + r.1.expect_time.tv_nsec
        = now.tv_sec * 1000000000 + now.tv_nsec + task.interval * 1000000 ∧
      r.2._timer_task_queue = s._timer_task_queue ++ [r.1] := by
  obtain ⟨r, hr, ht, hs⟩ := addTimerTask_unset env s task now hunset hclock hwrite
  refine ⟨r, hr, ?_, ?_⟩
  · have h := expect_time_toNanos now task.interval hI hnow.1
    rw [ht]
    simpa [Timespec.toNanos] using h
  · rw [hs]

/-- Witness of C1: a 1500 ms task submitted at 5 s 999 999 999 ns. -/
theorem addTimerTask_deadline_from_now_witness :
    ∃ r, addTimerTask (Env.const ⟨5, 999999999⟩) {} (TimerTask.fresh 1 1500 false) = some r ∧
      r.1.expect_time.tv_sec * 1000000000 + r.1.expect_time.tv_nsec
        = 5 * 1000000000 + 999999999 + 1500 * 1000000 ∧
      r.2._timer_task_queue = [] ++ [r.1] :=
  addTimerTask_deadline_from_now (Env.const ⟨5, 999999999⟩) {} (TimerTask.fresh 1 1500 false)
    ⟨5, 999999999⟩ ⟨rfl, rfl⟩ (by decide) rfl (by decide) rfl

/-- Facts that every later submission keeps: the create-time stays set, the
interval stays the same and the deadline keeps a non-negative sub-second field. -/
theorem resubmit_chain (I : Int) (hI : 0 ≤ I) (subs : List (Env × TimerController)) :
    ∀ task : TimerTask,
      ¬ (task.create_time.tv_sec = 0 ∧ task.create_time.tv_nsec = 0) →
      task.interval = I → 0 ≤ task.expect_time.tv_nsec →
      (∀ p ∈ subs, p.1.eventfd_write p.2.syscalls = true) →
      ∃ tk, resubmit subs task = some tk ∧
        ¬ (tk.create_time.tv_sec = 0 ∧ tk.create_time.tv_nsec = 0) ∧
        tk.interval = I ∧ 0 ≤ tk.expect_time.tv_nsec ∧
        tk.expect_time.toNanos = task.expect_time.toNanos + subs.length * (I * 1000000) := by
  induction subs with
  | nil =>
    intro task hset hint hns _
    exact ⟨task, rfl, hset, hint, hns, by simp⟩
  | cons p rest ih =>
    intro task hset hint hns hw
    obtain ⟨env, s⟩ := p
    have hwp : env.eventfd_write s.syscalls = true := hw (env, s) (List.mem_cons_self _ _)
    obtain ⟨r, hr, ht, -⟩ := addTimerTask_set env s task hset hwp
    have hnano := expect_time_toNanos task.expect_time task.interval (hint ▸ hI) hns
    have hnorm := expect_time_normalized task.expect_time task.interval (hint ▸ hI) hns
    have hr1 : ¬ (r.1.create_time.tv_sec = 0 ∧ r.1.create_time.tv_nsec = 0) := by
      rw [ht]; exact hset
    have hr2 : r.1.interval = I := by rw [ht]; exact hint
    have hr3 : 0 ≤ r.1.expect_time.tv_nsec := by rw [ht]; exact hnorm.1
    have hr4 : r.1.expect_time.toNanos = task.expect_time.toNanos + I * 1000000 := by
      rw [ht]; simpa [hint] using hnano
    obtain ⟨tk, htk, h1, h2, h3, h4⟩ :=
      ih r.1 hr1 hr2 hr3 (fun q hq => hw q (List.mem_cons_of_mem _ hq))
    refine ⟨tk, ?_, h1, h2, h3, ?_⟩
    · simp only [resubmit, hr]
      exact htk
    · rw [h4, hr4]
      simp only [List.length_cons]
      push_cast
      ring

/-- C2, the code at the failing input: a recurring 10 ms task with an unset
create-time is first submitted when the clock reads 5 s 0 ns.  Line 132 stores
the nanosecond field of the clock in `create_time.tv_sec`, so the create-time
stored is (0 s, 0 ns), the unset value, and the deadline is 5 s 10 ms.  The
second submission of the task, made when the clock reads 7 s, takes the branch
of line 128 again and sets the deadline from the clock, to 7 s 10 ms, not to
the previous deadline plus the interval (5 s 20 ms). -/
theorem resubmission_reads_clock_after_zero_nsec :
    ∃ r1 r2,
      addTimerTask (Env.const ⟨5, 0⟩) {} (TimerTask.fresh 1 10 true) = some r1 ∧
      r1.1.create_time = ⟨0, 0⟩ ∧
      r1.1.expect_time = ⟨5, 10000000⟩ ∧
      addTimerTask (Env.const ⟨7, 0⟩) r1.2 r1.1 = some r2 ∧
      r2.1.expect_time = ⟨7, 10000000⟩ ∧
      r2.1.expect_time.toNanos ≠ r1.1.expect_time.toNanos + 10 * 1000000 :=
  ⟨_, _, rfl, by decide, by decide, rfl, by decide, by decide⟩

/-- Where the first submission stores a set create-time, later submissions
chain off the deadline: a task with an unset create-time is first submitted at
a clock reading `t0` with `0 <= t0.tv_nsec < 10^9` and interval `I >= 0`.  If
the create-time stored by that submission is not the unset value (0 s, 0 ns),
then every later `addTimerTask` on the task, in any environment and controller state
(so whatever the clock reads), returns and sets the deadline to the previous
deadline plus `I`: after the first and `subs.length` later submissions the
deadline is `t0 + (subs.length + 1) * I`, and one more submission adds `I`
again. -/
theorem resubmission_chains_off_deadline (env0 : Env) (s0 : TimerController)
    (task : TimerTask) (t0 : Timespec) (r1 : TimerTask × TimerController)
    (subs : List (Env × TimerController))
    (hunset : task.create_time.tv_sec = 0 ∧ task.create_time.tv_nsec = 0)
    (hI : 0 ≤ task.interval)
    (hclock : env0.clock_gettime s0.syscalls = some t0)
    (ht0 : 0 ≤ t0.tv_nsec ∧ t0.tv_nsec < 1000000000)
    (hfirst : addTimerTask env0 s0 task = some r1)
    (hstored : ¬ (r1.1.create_time.tv_sec = 0 ∧ r1.1.create_time.tv_nsec = 0))
    (hwrite : ∀ p ∈ subs, p.1.eventfd_write p.2.syscalls = true) :
    ∃ tk, resubmit subs r1.1 = some tk ∧
      tk.expect_time.toNanos
        = t0.toNanos + (subs.length + 1) * (task.interval * 1000000) ∧
      ∀ (env : Env) (s : TimerController), env.eventfd_write s.syscalls = true →
        ∃ r, addTimerTask env s tk = some r ∧
          r.1.expect_time.toNanos = tk.expect_time.toNanos + task.interval * 1000000 := by
  have hr1 : r1.1 = { task with
      create_time := { tv_sec := t0.tv_nsec, tv_nsec := t0.tv_nsec }
      expect_time := addTimerTask_expect_time t0 task.interval } := by
    simp only [addTimerTask, hunset, and_self, if_true, hclock, addTimerTask_submit] at hfirst
    split at hfirst
    · simp only [Option.some.injEq] at hfirst
      rw [← hfirst]
    · exact absurd hfirst (by simp)
  have hint : r1.1.interval = task.interval := by rw [hr1]
  have hnano : r1.1.expect_time.toNanos = t0.toNanos + task.interval * 1000000 := by
    rw [hr1]; exact expect_time_toNanos t0 task.interval hI ht0.1
  have hns : 0 ≤ r1.1.expect_time.tv_nsec := by
    rw [hr1]; exact (expect_time_normalized t0 task.interval hI ht0.1).1
  obtain ⟨tk, htk, h1, h2, h3, h4⟩ :=
    resubmit_chain task.interval hI subs r1.1 hstored hint hns hwrite
  refine ⟨tk, htk, ?_, ?_⟩
  · rw [h4, hnano]; ring
  · intro env s hw
    obtain ⟨r, hr, ht, -⟩ := addTimerTask_set env s tk h1 hw
    refine ⟨r, hr, ?_⟩
    rw [ht]
    simpa [h2] using expect_time_toNanos tk.expect_time tk.interval (h2 ▸ hI) h3

/-- An instance of the chain: a 10 ms task first submitted at 5 s 7 ns, then
submitted again at clock readings 100 s and 3 s, and once more at 50 s. -/
theorem resubmission_chains_off_deadline_witness :
    ∃ tk, resubmit [(Env.const ⟨100, 0⟩, {}), (Env.const ⟨3, 0⟩, {})]
        (⟨some 1, 10, true, ⟨7, 7⟩, ⟨5, 10000007⟩⟩ : TimerTask) = some tk ∧
      tk.expect_time.toNanos
        = Timespec.toNanos ⟨5, 7⟩ + (((2 : Nat) : Int) + 1) * (10 * 1000000) ∧
      ∃ r, addTimerTask (Env.const ⟨50, 0⟩) {} tk = some r ∧
        r.1.expect_time.toNanos = tk.expect_time.toNanos + 10 * 1000000 :=
  (resubmission_chains_off_deadline (Env.const ⟨5, 7⟩) {} (TimerTask.fresh 1 10 true) ⟨5, 7⟩
    ((⟨some 1, 10, true, ⟨7, 7⟩, ⟨5, 10000007⟩⟩ : TimerTask),
      { _timer_task_queue := [⟨some 1, 10, true, ⟨7, 7⟩, ⟨5, 10000007⟩⟩],
        eventfd_counter := 1, syscalls := 2 })
    [(Env.const ⟨100, 0⟩, {}), (Env.const ⟨3, 0⟩, {})]
    ⟨rfl, rfl⟩ (by decide) rfl (by decide) rfl (by decide)
    (fun p hp => by
      simp only [List.mem_cons, List.mem_singleton, List.not_mem_nil, or_false] at hp
      rcases hp with h | h <;> rw [h] <;> rfl)).imp
    (fun _ h => ⟨h.1, h.2.1, h.2.2 (Env.const ⟨50, 0⟩) {} rfl⟩)

/-- C3, the code at the failing input: a 1000 ms task with an unset create-time
is submitted when the clock reads 5 s 7 ns.  Line 132 stores the clock's
nanosecond field in `create_time.tv_sec`, so the stored create-time is
7 s 7 ns while the deadline is 6 s 7 ns: the deadline is not the stored
create-time plus the interval. -/
theorem create_time_stores_nsec_in_sec :
    ∃ r, addTimerTask (Env.const ⟨5, 7⟩) {} (TimerTask.fresh 1 1000 false) = some r ∧
      r.1.create_time = ⟨7, 7⟩ ∧ r.1.expect_time = ⟨6, 7⟩ ∧
      r.1.expect_time.toNanos ≠ r.1.create_time.toNanos + 1000 * 1000000 :=
  ⟨_, rfl, by decide, by decide, by decide⟩

/-- C4: for every interval `I >= 0`, when every base time (the clock readings,
and the deadline the task carries unless its create-time is unset) has
`0 <= tv_nsec < 10^9`, any non-empty sequence of `addTimerTask` calls on the
task returns and leaves a deadline with `0 <= expect_time.tv_nsec < 10^9`. -/
theorem deadline_stays_normalized (subs : List (Env × TimerController)) :
    ∀ task : TimerTask, 0 ≤ task.interval →
      ((task.create_time.tv_sec = 0 ∧ task.create_time.tv_nsec = 0) ∨
        task.expect_time.normalized) →
      (∀ p ∈ subs, p.1.succeeds ∧ p.1.clock_normalized) →
      subs ≠ [] →
      ∃ tk, resubmit subs task = some tk ∧ tk.expect_time.normalized := by
  induction subs with
  | nil => intro _ _ _ _ h; exact absurd rfl h
  | cons p rest ih =>
    intro task hI hbase henv _
    obtain ⟨env, s⟩ := p
    obtain ⟨hsucc, hclk⟩ := henv (env, s) (List.mem_cons_self _ _)
    have step : ∃ r, addTimerTask env s task = some r ∧ r.1.interval = task.interval ∧
        r.1.expect_time.normalized := by
      by_cases hunset : task.create_time.tv_sec = 0 ∧ task.create_time.tv_nsec = 0
      · obtain ⟨now, hnow⟩ := Option.isSome_iff_exists.mp (hsucc s.syscalls).1
        obtain ⟨r, hr, ht, -⟩ :=
          addTimerTask_unset env s task now hunset hnow (hsucc _).2.2.2
        refine ⟨r, hr, by rw [ht], ?_⟩
        rw [ht]
        exact expect_time_normalized now task.interval hI (hclk _ _ hnow).1
      · obtain ⟨r, hr, ht, -⟩ := addTimerTask_set env s task hunset (hsucc _).2.2.2
        refine ⟨r, hr, by rw [ht], ?_⟩
        rw [ht]
        exact expect_time_normalized task.expect_time task.interval hI
          (hbase.resolve_left hunset).1
    obtain ⟨r, hr, hint, hnorm⟩ := step
    by_cases hrest : rest = []
    · subst hrest
      refine ⟨r.1, ?_, hnorm⟩
      simp only [resubmit, hr]
    · obtain ⟨tk, htk, hk⟩ := ih r.1 (hint ▸ hI) (Or.inr hnorm)
        (fun q hq => henv q (List.mem_cons_of_mem _ hq)) hrest
      refine ⟨tk, ?_, hk⟩
      simp only [resubmit, hr]
      exact htk

/-- Witness of C4: a 1500 ms task submitted at 5 s 999 999 999 ns and again at
9 s 0 ns. -/
theorem deadline_stays_normalized_witness :
    ∃ tk, resubmit [(Env.const ⟨5, 999999999⟩, {}), (Env.const ⟨9, 0⟩, {})]
        (TimerTask.fresh 1 1500 true) = some tk ∧ tk.expect_time.normalized :=
  deadline_stays_normalized [(Env.const ⟨5, 999999999⟩, {}), (Env.const ⟨9, 0⟩, {})]
    (TimerTask.fresh 1 1500 true) (by decide) (Or.inl ⟨rfl, rfl⟩)
    (fun p hp => by
      simp only [List.mem_cons, List.mem_singleton, List.not_mem_nil, or_false] at hp
      rcases hp with h | h <;> rw [h]
      · exact ⟨Env.const_succeeds _, Env.const_clock_normalized _ (by decide)⟩
      · exact ⟨Env.const_succeeds _, Env.const_clock_normalized _ (by decide)⟩)
    (by simp)

/-! ## The heap algorithms keep the heap property and the elements -/

section HeapLemmas

theorem getD_set_eq {α : Type} (l : List α) (i : Nat) (a d : α) (h : i < l.length) :
    (l.set i a).getD i d = a := by
  simp [List.getD_eq_getElem?_getD, List.getElem?_set_self, h]

theorem getD_set_ne {α : Type} (l : List α) (i j : Nat) (a d : α) (h : i ≠ j) :
    (l.set i a).getD j d = l.getD j d := by
  simp [List.getD_eq_getElem?_getD, List.getElem?_set_ne h]

theorem set_getD_self {α : Type} (l : List α) (i : Nat) (d : α) (h : i < l.length) :
    l.set i (l.getD i d) = l := by
  apply List.ext_getElem?
  intro j
  by_cases hj : i = j
  · subst hj
    simp [List.getElem?_set_self, h, List.getD_eq_getElem?_getD]
  · simp [List.getElem?_set_ne hj]

/-- Moving the element at `p` into the hole `h` and the value into `p` permutes
the list in which the value sits in the hole. -/
theorem set_swap_perm {α : Type} [DecidableEq α] (l : List α) (h p : Nat) (value d : α)
    (hne : h ≠ p) (hh : h < l.length) (hp : p < l.length) :
    ((l.set h (l.getD p d)).set p value).Perm (l.set h value) := by
  rw [List.perm_iff_count]
  intro x
  have hp2 : p < (l.set h (l.getD p d)).length := by simpa using hp
  rw [List.count_set _ _ _ _ hp2, List.count_set _ _ _ _ hh, List.count_set _ _ _ _ hh]
  have e1 : (l.set h (l.getD p d))[p] = l[p] := by
    rw [List.getElem_set_ne hne]
  have e2 : l.getD p d = l[p] := by
    simp [List.getD_eq_getElem?_getD, hp]
  rw [e1, e2]
  split_ifs <;> omega

theorem CompOrder.irrefl {α : Type} {comp : α → α → Bool} (hc : CompOrder comp) (a : α) :
    comp a a = false := by
  cases h : comp a a
  · rfl
  · have := hc.asymm a a h
    rw [h] at this
    exact this

variable {α : Type} [Inhabited α]

theorem is_heap_iff (comp : α → α → Bool) (v : List α) (n : Nat) :
    is_heap comp v n = true ↔ HeapUpTo comp v n := by
  simp only [is_heap, List.all_eq_true, List.mem_range, HeapUpTo, Bool.or_eq_true,
    decide_eq_true_eq, Bool.not_eq_true']
  constructor
  · intro h i hi hin
    rcases h i hin with h0 | h1
    · omega
    · exact h1
  · intro h i hin
    by_cases h0 : i = 0
    · exact Or.inl h0
    · exact Or.inr (h i (Nat.pos_of_ne_zero h0) hin)

/-- The front of a heap is not `comp`-less than any element. -/
theorem HeapUpTo.front_ge {comp : α → α → Bool} (hc : CompOrder comp) {v : List α}
    {n : Nat} (hv : HeapUpTo comp v n) :
    ∀ i, i < n → comp (v.getD 0 default) (v.getD i default) = false := by
  intro i
  induction i using Nat.strong_induction_on with
  | _ i ih =>
    intro hin
    by_cases h0 : i = 0
    · subst h0
      exact hc.irrefl _
    · have hpos : 0 < i := Nat.pos_of_ne_zero h0
      exact hc.trans _ _ _ (ih ((i - 1) / 2) (by omega) (by omega)) (hv i hpos hin)

/-- Storing `value` in the hole gives a heap when the rest is in heap order, the
children of the hole are not above `value` and `value` is not above the
parent of the hole. -/
theorem heapUpTo_set_hole {comp : α → α → Bool} (v : List α) (n hole : Nat) (value : α)
    (hn : n ≤ v.length) (hh : hole < n)
    (hA : ∀ i, 0 < i → i < n → i ≠ hole →
      comp (v.getD ((i - 1) / 2) default) (v.getD i default) = false)
    (hC : ∀ c, 0 < c → c < n → (c - 1) / 2 = hole → comp value (v.getD c default) = false)
    (hP : 0 < hole → comp (v.getD ((hole - 1) / 2) default) value = false) :
    HeapUpTo comp (v.set hole value) n := by
  intro i hi hin
  by_cases hih : i = hole
  · subst hih
    rw [getD_set_eq _ _ _ _ (by omega), getD_set_ne _ _ _ _ _ (by omega)]
    exact hP hi
  · rw [getD_set_ne _ _ i _ _ (Ne.symm hih)]
    by_cases hp : (i - 1) / 2 = hole
    · rw [hp, getD_set_eq _ _ _ _ (by omega)]
      exact hC i hi hin hp
    · rw [getD_set_ne _ _ _ _ _ (Ne.symm hp)]
      exact hA i hi hin hih

/-- Copying a child that is not below its sibling into its parent keeps the
heap order. -/
theorem heapUpTo_set_child {comp : α → α → Bool} (hc : CompOrder comp) (v : List α)
    (n hole child : Nat) (hn : n ≤ v.length) (hv : HeapUpTo comp v n)
    (hchild : child < n) (hpos : 0 < child) (hpar : (child - 1) / 2 = hole)
    (hsib : ∀ c, 0 < c → c < n → (c - 1) / 2 = hole →
      comp (v.getD child default) (v.getD c default) = false) :
    HeapUpTo comp (v.set hole (v.getD child default)) n := by
  intro i hi hin
  by_cases hih : i = hole
  · subst hih
    rw [getD_set_eq _ _ _ _ (by omega), getD_set_ne _ _ _ _ _ (by omega)]
    have h2 := hv child hpos hchild
    rw [hpar] at h2
    exact hc.trans _ _ _ (hv i hi hin) h2
  · rw [getD_set_ne _ _ i _ _ (Ne.symm hih)]
    by_cases hp : (i - 1) / 2 = hole
    · rw [hp, getD_set_eq _ _ _ _ (by omega)]
      exact hsib i hi hin hp
    · rw [getD_set_ne _ _ _ _ _ (Ne.symm hp)]
      exact hv i hi hin

/-- More fuel than the hole index changes nothing: the loop of `__push_heap`
ends by its own condition. -/
theorem push_heap_loop_fuel (comp : α → α → Bool) (value : α) (top : Nat) :
    ∀ (fuel : Nat) (v : List α) (hole : Nat), hole ≤ fuel →
      __push_heap comp value top (fuel + 1) v hole = __push_heap comp value top fuel v hole := by
  intro fuel
  induction fuel with
  | zero =>
    intro v hole hf
    have h0 : hole = 0 := by omega
    subst h0
    simp [__push_heap]
  | succ fuel ih =>
    intro v hole hf
    rw [__push_heap]
    conv => rhs; rw [__push_heap]
    split_ifs with hcond
    · exact ih _ _ (by omega)
    · rfl

/-- More fuel than the length changes nothing: the descent of `__adjust_heap`
ends by its own condition. -/
theorem adjust_heap_descend_fuel (comp : α → α → Bool) (len : Nat) :
    ∀ (fuel : Nat) (v : List α) (hole : Nat), (len - 1) / 2 ≤ hole + fuel →
      __adjust_heap_descend comp len (fuel + 1) v hole
        = __adjust_heap_descend comp len fuel v hole := by
  intro fuel
  induction fuel with
  | zero =>
    intro v hole hf
    have h0 : ¬ hole < (len - 1) / 2 := by omega
    simp [__adjust_heap_descend, h0]
  | succ fuel ih =>
    intro v hole hf
    rw [__adjust_heap_descend]
    conv => rhs; rw [__adjust_heap_descend]
    split_ifs with hlt
    · apply ih
      split_ifs <;> omega
    · rfl

theorem push_heap_loop_length (comp : α → α → Bool) (value : α) (top : Nat) :
    ∀ (fuel : Nat) (v : List α) (hole : Nat),
      (__push_heap comp value top fuel v hole).length = v.length := by
  intro fuel
  induction fuel with
  | zero => intro v hole; simp [__push_heap]
  | succ fuel ih =>
    intro v hole
    simp only [__push_heap]
    split_ifs
    · rw [ih]; simp
    · simp

theorem push_heap_loop_getD_above (comp : α → α → Bool) (value : α) (top : Nat) :
    ∀ (fuel : Nat) (v : List α) (hole j : Nat), hole < j →
      (__push_heap comp value top fuel v hole).getD j default = v.getD j default := by
  intro fuel
  induction fuel with
  | zero =>
    intro v hole j hj
    simp only [__push_heap]
    exact getD_set_ne _ _ _ _ _ (by omega)
  | succ fuel ih =>
    intro v hole j hj
    simp only [__push_heap]
    split_ifs
    · rw [ih _ _ j (by omega)]
      exact getD_set_ne _ _ _ _ _ (by omega)
    · exact getD_set_ne _ _ _ _ _ (by omega)

theorem push_heap_loop_perm [DecidableEq α] (comp : α → α → Bool) (value : α) :
    ∀ (fuel : Nat) (v : List α) (hole : Nat), hole < v.length →
      (__push_heap comp value 0 fuel v hole).Perm (v.set hole value) := by
  intro fuel
  induction fuel with
  | zero => intro v hole _; simp [__push_heap]
  | succ fuel ih =>
    intro v hole hh
    simp only [__push_heap]
    split_ifs with hcond
    · have hp : (hole - 1) / 2 < hole := by omega
      refine (ih _ _ (by simp; omega)).trans ?_
      exact set_swap_perm v hole _ value default (by omega) hh (by omega)
    · exact List.Perm.refl _

/-- The loop of `__push_heap` ends in a heap: the vector is in heap order apart
from the hole, the children of the hole are not above the parent of the hole
and not above `value`. -/
theorem push_heap_loop_heapUpTo {comp : α → α → Bool} (hc : CompOrder comp) (value : α)
    (n : Nat) :
    ∀ (fuel : Nat) (v : List α) (hole : Nat), hole ≤ fuel → n ≤ v.length → hole < n →
      (∀ i, 0 < i → i < n → i ≠ hole →
        comp (v.getD ((i - 1) / 2) default) (v.getD i default) = false) →
      (∀ c, 0 < c → c < n → (c - 1) / 2 = hole → 0 < hole →
        comp (v.getD ((hole - 1) / 2) default) (v.getD c default) = false) →
      (∀ c, 0 < c → c < n → (c - 1) / 2 = hole → comp value (v.getD c default) = false) →
      HeapUpTo comp (__push_heap comp value 0 fuel v hole) n := by
  intro fuel
  induction fuel with
  | zero =>
    intro v hole hf hn hh hA _ hC
    simp only [__push_heap]
    exact heapUpTo_set_hole v n hole value hn hh hA hC (by omega)
  | succ fuel ih =>
    intro v hole hf hn hh hA hB hC
    simp only [__push_heap]
    split_ifs with hcond
    · obtain ⟨hpos, hlt⟩ := hcond
      have hp : (hole - 1) / 2 < hole := by omega
      have hval : comp value (v.getD ((hole - 1) / 2) default) = false := hc.asymm _ _ hlt
      refine ih _ _ (by omega) (by simpa using hn) (by omega) ?_ ?_ ?_
      · intro i hi hin hne
        by_cases hih : i = hole
        · subst hih
          rw [getD_set_eq _ _ _ _ (by omega), getD_set_ne _ _ _ _ _ (by omega)]
          exact hc.irrefl _
        · rw [getD_set_ne _ _ i _ _ (Ne.symm hih)]
          by_cases hpi : (i - 1) / 2 = hole
          · rw [hpi, getD_set_eq _ _ _ _ (by omega)]
            exact hB i hi hin hpi hpos
          · rw [getD_set_ne _ _ _ _ _ (Ne.symm hpi)]
            exact hA i hi hin hih
      · intro c hc0 hcn hcp hppos
        have hpp := hA ((hole - 1) / 2) hppos (by omega) (by omega)
        rw [getD_set_ne _ _ _ _ _ (by omega)]
        by_cases hch : c = hole
        · subst hch
          rw [getD_set_eq _ _ _ _ (by omega)]
          exact hpp
        · rw [getD_set_ne _ _ c _ _ (Ne.symm hch)]
          have h2 := hA c hc0 hcn hch
          rw [hcp] at h2
          exact hc.trans _ _ _ hpp h2
      · intro c hc0 hcn hcp
        by_cases hch : c = hole
        · subst hch
          rw [getD_set_eq _ _ _ _ (by omega)]
          exact hval
        · rw [getD_set_ne _ _ c _ _ (Ne.symm hch)]
          have h2 := hA c hc0 hcn hch
          rw [hcp] at h2
          exact hc.trans _ _ _ hval h2
    · refine heapUpTo_set_hole v n hole value hn hh hA hC ?_
      intro hpos
      cases hcmp : comp (v.getD ((hole - 1) / 2) default) value
      · rfl
      · exact absurd ⟨hpos, hcmp⟩ hcond

end HeapLemmas

section HeapSpecs

variable {α : Type} [Inhabited α]

/-- The descent of `__adjust_heap` keeps the heap order on `[0, len)`, ends with
the hole at an index that is not below `(len - 1) / 2`, leaves the elements
from `len` on alone, and only moves elements past the hole. -/
theorem adjust_heap_descend_spec [DecidableEq α] {comp : α → α → Bool}
    (hc : CompOrder comp) (len : Nat) (value : α) :
    ∀ (fuel : Nat) (v : List α) (hole : Nat), HeapUpTo comp v len → len ≤ v.length →
      hole < len → (len - 1) / 2 ≤ hole + fuel →
      HeapUpTo comp (__adjust_heap_descend comp len fuel v hole).1 len ∧
      (__adjust_heap_descend comp len fuel v hole).1.length = v.length ∧
      (__adjust_heap_descend comp len fuel v hole).2 < len ∧
      ¬ (__adjust_heap_descend comp len fuel v hole).2 < (len - 1) / 2 ∧
      (((__adjust_heap_descend comp len fuel v hole).1.set
        (__adjust_heap_descend comp len fuel v hole).2 value).Perm (v.set hole value)) ∧
      ∀ j, len ≤ j →
        (__adjust_heap_descend comp len fuel v hole).1.getD j default = v.getD j default := by
  intro fuel
  induction fuel with
  | zero =>
    intro v hole hv hn hh hf
    exact ⟨hv, rfl, hh, by simp only [__adjust_heap_descend]; omega, List.Perm.refl _,
      fun _ _ => rfl⟩
  | succ fuel ih =>
    intro v hole hv hn hh hf
    simp only [__adjust_heap_descend]
    split_ifs with hlt hcmp
    · -- the left child is not below the right child
      have hchild : 2 * (hole + 1) - 1 < len := by omega
      have hheap : HeapUpTo comp
          (v.set hole (v.getD (2 * (hole + 1) - 1) default)) len := by
        refine heapUpTo_set_child hc v len hole _ hn hv hchild (by omega) (by omega) ?_
        intro c hc0 hcn hcp
        have hcases : c = 2 * (hole + 1) - 1 ∨ c = 2 * (hole + 1) := by omega
        rcases hcases with h | h
        · rw [h]; exact hc.irrefl _
        · rw [h]; exact hc.asymm _ _ hcmp
      obtain ⟨h1, h2, h3, h4, h5, h6⟩ :=
        ih _ _ hheap (by simpa using hn) hchild (by omega)
      refine ⟨h1, by simpa using h2, h3, h4, ?_, ?_⟩
      · exact h5.trans (set_swap_perm v hole _ value default (by omega) (by omega) (by omega))
      · intro j hj
        rw [h6 j hj]
        exact getD_set_ne _ _ _ _ _ (by omega)
    · -- the right child is not below the left child
      have hchild : 2 * (hole + 1) < len := by omega
      have hnb : comp (v.getD (2 * (hole + 1)) default)
          (v.getD (2 * (hole + 1) - 1) default) = false := by
        cases h : comp (v.getD (2 * (hole + 1)) default) (v.getD (2 * (hole + 1) - 1) default)
        · rfl
        · exact absurd h hcmp
      have hheap : HeapUpTo comp (v.set hole (v.getD (2 * (hole + 1)) default)) len := by
        refine heapUpTo_set_child hc v len hole _ hn hv hchild (by omega) (by omega) ?_
        intro c hc0 hcn hcp
        have hcases : c = 2 * (hole + 1) - 1 ∨ c = 2 * (hole + 1) := by omega
        rcases hcases with h | h
        · rw [h]; exact hnb
        · rw [h]; exact hc.irrefl _
      obtain ⟨h1, h2, h3, h4, h5, h6⟩ :=
        ih _ _ hheap (by simpa using hn) hchild (by omega)
      refine ⟨h1, by simpa using h2, h3, h4, ?_, ?_⟩
      · exact h5.trans (set_swap_perm v hole _ value default (by omega) (by omega) (by omega))
      · intro j hj
        rw [h6 j hj]
        exact getD_set_ne _ _ _ _ _ (by omega)
    · exact ⟨hv, by trivial, hh, hlt, List.Perm.refl _, by intros; trivial⟩

/-- `__adjust_heap` from the top: the result holds the elements of the vector
with `value` in place of the front, is a heap on `[0, len)` and leaves the
elements from `len` on alone. -/
theorem adjust_heap_spec [DecidableEq α] {comp : α → α → Bool} (hc : CompOrder comp)
    (v : List α) (len : Nat) (value : α) (hv : HeapUpTo comp v len) (hn : len ≤ v.length)
    (hlen : 0 < len) :
    HeapUpTo comp (__adjust_heap comp v 0 len value) len ∧
    (__adjust_heap comp v 0 len value).Perm (v.set 0 value) ∧
    ∀ j, len ≤ j → (__adjust_heap comp v 0 len value).getD j default = v.getD j default := by
  obtain ⟨h1, h2, h3, h4, h5, h6⟩ :=
    adjust_heap_descend_spec hc len value len v 0 hv hn hlen (by omega)
  simp only [__adjust_heap]
  generalize __adjust_heap_descend comp len len v 0 = r at h1 h2 h3 h4 h5 h6
  obtain ⟨v1, hole⟩ := r
  simp only at h1 h2 h3 h4 h5 h6 ⊢
  split_ifs with hcond
  · obtain ⟨heven, hhole⟩ := hcond
    have hchild : 2 * (hole + 1) - 1 < len := by omega
    have hheap : HeapUpTo comp (v1.set hole (v1.getD (2 * (hole + 1) - 1) default)) len := by
      refine heapUpTo_set_child hc v1 len hole _ (by omega) h1 hchild (by omega) (by omega) ?_
      intro c hc0 hcn hcp
      have hceq : c = 2 * (hole + 1) - 1 := by omega
      rw [hceq]; exact hc.irrefl _
    refine ⟨?_, ?_, ?_⟩
    · refine push_heap_loop_heapUpTo hc value len _ _ _ (le_refl _) (by simp; omega) hchild
        ?_ ?_ ?_
      · intro i hi hin _; exact hheap i hi hin
      · intro c hc0 hcn hcp; omega
      · intro c hc0 hcn hcp; omega
    · refine (push_heap_loop_perm comp value _ _ _ (by simp; omega)).trans ?_
      exact (set_swap_perm v1 hole _ value default (by omega) (by omega) (by omega)).trans h5
    · intro j hj
      rw [push_heap_loop_getD_above comp value 0 _ _ _ j (by omega),
        getD_set_ne _ _ _ _ _ (by omega)]
      exact h6 j hj
  · have hleaf : len ≤ 2 * hole + 1 := by
      by_contra hcon
      apply hcond
      constructor <;> omega
    refine ⟨?_, ?_, ?_⟩
    · refine push_heap_loop_heapUpTo hc value len _ _ _ (le_refl _) (by omega) h3 ?_ ?_ ?_
      · intro i hi hin _; exact h1 i hi hin
      · intro c hc0 hcn hcp; omega
      · intro c hc0 hcn hcp; omega
    · exact (push_heap_loop_perm comp value _ _ _ (by omega)).trans h5
    · intro j hj
      rw [push_heap_loop_getD_above comp value 0 _ _ _ j (by omega)]
      exact h6 j hj

/-- `std::pop_heap` on a non-empty heap: the result is a permutation with the
old front in the last place and a heap before it. -/
theorem pop_heap_spec [DecidableEq α] {comp : α → α → Bool} (hc : CompOrder comp)
    (v : List α) (hpos : 0 < v.length) (hv : HeapUpTo comp v v.length) :
    (pop_heap comp v).length = v.length ∧ (pop_heap comp v).Perm v ∧
    (pop_heap comp v).getD (v.length - 1) default = v.getD 0 default ∧
    HeapUpTo comp (pop_heap comp v) (v.length - 1) := by
  simp only [pop_heap]
  split_ifs with hlen
  · simp only [__pop_heap]
    have hheap : HeapUpTo comp (v.set (v.length - 1) (v.getD 0 default)) (v.length - 1) := by
      intro i hi hin
      rw [getD_set_ne _ _ _ _ _ (by omega), getD_set_ne _ _ _ _ _ (by omega)]
      exact hv i hi (by omega)
    obtain ⟨h1, h2, h3⟩ := adjust_heap_spec hc _ (v.length - 1)
      (v.getD (v.length - 1) default) hheap (by simp) (by omega)
    have hperm : (__adjust_heap comp (v.set (v.length - 1) (v.getD 0 default)) 0
        (v.length - 1) (v.getD (v.length - 1) default)).Perm v := by
      refine h2.trans ?_
      refine (set_swap_perm v (v.length - 1) 0 _ default (by omega) (by omega) (by omega)).trans ?_
      rw [set_getD_self _ _ _ (by omega)]
    refine ⟨?_, hperm, ?_, h1⟩
    · simpa using hperm.length_eq
    · rw [h3 _ (le_refl _)]
      exact getD_set_eq _ _ _ _ (by omega)
  · have h1 : v.length = 1 := by omega
    refine ⟨rfl, List.Perm.refl _, by rw [h1], ?_⟩
    intro i hi hin
    omega

/-- `std::push_heap` after appending `x` to a heap: the result is a heap that
holds `x` and the old elements. -/
theorem push_heap_spec [DecidableEq α] {comp : α → α → Bool} (hc : CompOrder comp)
    (v : List α) (x : α) (hv : HeapUpTo comp v v.length) :
    (push_heap comp (v ++ [x])).Perm (x :: v) ∧
    HeapUpTo comp (push_heap comp (v ++ [x])) (push_heap comp (v ++ [x])).length := by
  have hlen : (v ++ [x]).length - 1 = v.length := by simp
  have hval : (v ++ [x]).getD v.length default = x := by
    simp [List.getD_eq_getElem?_getD]
  have hset : (v ++ [x]).set v.length x = v ++ [x] := by
    have := set_getD_self (v ++ [x]) v.length default (by simp)
    rwa [hval] at this
  have hperm : (push_heap comp (v ++ [x])).Perm (x :: v) := by
    simp only [push_heap, hlen, hval]
    refine (push_heap_loop_perm comp x v.length (v ++ [x]) v.length (by simp)).trans ?_
    rw [hset]
    exact List.perm_append_comm
  refine ⟨hperm, ?_⟩
  rw [hperm.length_eq]
  simp only [push_heap, hlen, hval, List.length_cons]
  refine push_heap_loop_heapUpTo hc x (v.length + 1) v.length (v ++ [x]) v.length (le_refl _)
    (by simp) (by omega) ?_ ?_ ?_
  · intro i hi hin hne
    have h1 : (v ++ [x]).getD i default = v.getD i default := by
      simp [List.getD_eq_getElem?_getD, List.getElem?_append_left (by omega : i < v.length)]
    have h2 : (v ++ [x]).getD ((i - 1) / 2) default = v.getD ((i - 1) / 2) default := by
      simp [List.getD_eq_getElem?_getD,
        List.getElem?_append_left (by omega : (i - 1) / 2 < v.length)]
    rw [h1, h2]
    exact hv i hi (by omega)
  · intro c hc0 hcn hcp; omega
  · intro c hc0 hcn hcp; omega

end HeapSpecs

/-! ## The comparator -/

theorem TimerTaskComp_eq_true_iff (a b : TimerTask) :
    TimerTaskComp a b = true ↔ b.expect_time.earlier a.expect_time := by
  unfold TimerTaskComp Timespec.earlier
  split_ifs with h
  · simp only [gt_iff_lt, decide_eq_true_eq]
    omega
  · simp only [gt_iff_lt, decide_eq_true_eq]
    omega

theorem TimerTaskComp_eq_false_iff (a b : TimerTask) :
    TimerTaskComp a b = false ↔ a.expect_time.notLater b.expect_time := by
  unfold TimerTaskComp Timespec.notLater
  split_ifs with h
  · simp only [gt_iff_lt, decide_eq_false_iff_not]
    omega
  · simp only [gt_iff_lt, decide_eq_false_iff_not]
    omega

theorem TimerTaskComp_order : CompOrder TimerTaskComp where
  asymm := by
    intro a b h
    rw [TimerTaskComp_eq_true_iff] at h
    rw [TimerTaskComp_eq_false_iff]
    unfold Timespec.earlier at h
    unfold Timespec.notLater
    omega
  trans := by
    intro a b c h1 h2
    rw [TimerTaskComp_eq_false_iff] at h1 h2 ⊢
    unfold Timespec.notLater at h1 h2 ⊢
    omega

/-- The front of a heap under `TimerTaskComp` has a deadline at or before the
deadline of every task in the heap. -/
theorem heap_front_notLater (front : TimerTask) (rest : List TimerTask)
    (hv : HeapUpTo TimerTaskComp (front :: rest) (front :: rest).length) :
    ∀ u ∈ front :: rest, front.expect_time.notLater u.expect_time := by
  intro u hu
  obtain ⟨i, hi, rfl⟩ := List.getElem_of_mem hu
  have h := hv.front_ge TimerTaskComp_order i hi
  rw [TimerTaskComp_eq_false_iff] at h
  simpa [List.getD_eq_getElem?_getD, List.getElem?_eq_getElem hi] using h

/-- C7: `TimerTaskComp(a, b)` is true exactly when the deadline of `a` is
strictly later than that of `b` in lexicographic (`tv_sec`, then `tv_nsec`)
order; for deadlines with `0 <= tv_nsec < 10^9` that is
`a.tv_sec * 10^9 + a.tv_nsec > b.tv_sec * 10^9 + b.tv_nsec`; and the front of a
vector in heap order under it holds the smallest absolute deadline. -/
theorem TimerTaskComp_iff_later (a b : TimerTask)
    (ha : 0 ≤ a.expect_time.tv_nsec ∧ a.expect_time.tv_nsec < 1000000000)
    (hb : 0 ≤ b.expect_time.tv_nsec ∧ b.expect_time.tv_nsec < 1000000000) :
    (TimerTaskComp a b = true ↔
      (a.expect_time.tv_sec > b.expect_time.tv_sec ∨
        (a.expect_time.tv_sec = b.expect_time.tv_sec ∧
          a.expect_time.tv_nsec > b.expect_time.tv_nsec))) ∧
    (TimerTaskComp a b = true ↔
      a.expect_time.tv_sec * 1000000000 + a.expect_time.tv_nsec
        > b.expect_time.tv_sec * 1000000000 + b.expect_time.tv_nsec) ∧
    (∀ front rest, is_heap TimerTaskComp (front :: rest) (front :: rest).length = true →
      (∀ u ∈ front :: rest, u.expect_time.normalized) →
      ∀ u ∈ front :: rest, front.expect_time.toNanos ≤ u.expect_time.toNanos) := by
  refine ⟨?_, ?_, ?_⟩
  · rw [TimerTaskComp_eq_true_iff]
    unfold Timespec.earlier
    omega
  · rw [TimerTaskComp_eq_true_iff]
    unfold Timespec.earlier
    omega
  · intro front rest hheap hnorm u hu
    have h := heap_front_notLater front rest ((is_heap_iff _ _ _).mp hheap) u hu
    have h1 := hnorm u hu
    have h2 := hnorm front (List.mem_cons_self _ _)
    unfold Timespec.notLater at h
    unfold Timespec.normalized at h1 h2
    unfold Timespec.toNanos
    omega

/-- Witness of C7: deadlines 6 s 0 ns and 5 s 999 999 999 ns, and the heap of the
sample controller. -/
theorem TimerTaskComp_iff_later_witness :
    (TimerTaskComp (TimerTask.due 1 6 0) (TimerTask.due 2 5 999999999) = true ↔
      ((6 : Int) > 5 ∨ ((6 : Int) = 5 ∧ (0 : Int) > 999999999))) ∧
    (TimerTaskComp (TimerTask.due 1 6 0) (TimerTask.due 2 5 999999999) = true ↔
      (6 : Int) * 1000000000 + 0 > 5 * 1000000000 + 999999999) ∧
    (∀ u ∈ TimerController.sample._timer_task_heap,
      (TimerTask.due 1 1 0).expect_time.toNanos ≤ u.expect_time.toNanos) :=
  ⟨(TimerTaskComp_iff_later (TimerTask.due 1 6 0) (TimerTask.due 2 5 999999999)
      (by decide) (by decide)).1,
    (TimerTaskComp_iff_later (TimerTask.due 1 6 0) (TimerTask.due 2 5 999999999)
      (by decide) (by decide)).2.1,
    (TimerTaskComp_iff_later (TimerTask.due 1 6 0) (TimerTask.due 2 5 999999999)
      (by decide) (by decide)).2.2 (TimerTask.due 1 1 0)
      [TimerTask.due 2 3 0, TimerTask.due 3 2 0] (by decide) (by decide)⟩

/-! ## The controller operations when the system calls succeed -/

theorem refreshTimer_spec (env : Env) (henv : env.succeeds) (s : TimerController)
    (task : TimerTask) :
    ∃ s1, refreshTimer env s task = some s1 ∧
      s1._timer_task_heap = s._timer_task_heap ∧
      s1._timer_task_queue = s._timer_task_queue ∧
      s1._timer_task_pool = s._timer_task_pool ∧
      s1.fired = s.fired ∧
      s1.refreshed = s.refreshed ++ [task] := by
  obtain ⟨now, hnow⟩ := Option.isSome_iff_exists.mp (henv s.syscalls).1
  simp [refreshTimer, hnow, (henv (s.syscalls + 1)).2.1, (henv (s.syscalls + 2)).2.2.1]

theorem addTimerTask_spec (env : Env) (henv : env.succeeds) (s : TimerController)
    (task : TimerTask) :
    ∃ r, addTimerTask env s task = some r ∧
      r.2._timer_task_heap = s._timer_task_heap ∧
      r.2._timer_task_queue = s._timer_task_queue ++ [r.1] ∧
      r.2._timer_task_pool = s._timer_task_pool ∧
      r.2.fired = s.fired ∧
      r.2.refreshed = s.refreshed ∧
      r.2.itimer = s.itimer := by
  by_cases hunset : task.create_time.tv_sec = 0 ∧ task.create_time.tv_nsec = 0
  · obtain ⟨now, hnow⟩ := Option.isSome_iff_exists.mp (henv s.syscalls).1
    obtain ⟨r, hr, -, hs⟩ := addTimerTask_unset env s task now hunset hnow (henv _).2.2.2
    exact ⟨r, hr, by rw [hs], by rw [hs], by rw [hs], by rw [hs], by rw [hs], by rw [hs]⟩
  · obtain ⟨r, hr, -, hs⟩ := addTimerTask_set env s task hunset (henv _).2.2.2
    exact ⟨r, hr, by rw [hs], by rw [hs], by rw [hs], by rw [hs], by rw [hs], by rw [hs]⟩

/-- `std::push_heap` after appending keeps the elements. -/
theorem push_heap_perm {α : Type} [Inhabited α] [DecidableEq α] (comp : α → α → Bool)
    (v : List α) (x : α) : (push_heap comp (v ++ [x])).Perm (v ++ [x]) := by
  have hlen : (v ++ [x]).length - 1 = v.length := by simp
  have hval : (v ++ [x]).getD v.length default = x := by
    simp [List.getD_eq_getElem?_getD]
  have hset : (v ++ [x]).set v.length x = v ++ [x] := by
    have := set_getD_self (v ++ [x]) v.length default (by simp)
    rwa [hval] at this
  simp only [push_heap, hlen, hval]
  refine (push_heap_loop_perm comp x v.length (v ++ [x]) v.length (by simp)).trans ?_
  rw [hset]

/-- One pass of the loop of `custTimerTask`: the task goes into the heap, and
`refreshTimer` is called for it exactly when the heap was empty or
`TimerTaskEarlierComp(task, front)` held. -/
theorem custTimerTask_insert_spec (env : Env) (henv : env.succeeds) (s : TimerController)
    (task : TimerTask) :
    ∃ s1, custTimerTask_insert env s task = some s1 ∧
      s1._timer_task_heap = push_heap TimerTaskComp (s._timer_task_heap ++ [task]) ∧
      s1._timer_task_queue = s._timer_task_queue ∧
      s1._timer_task_pool = s._timer_task_pool ∧
      s1.fired = s.fired ∧
      ((s._timer_task_heap = [] ∨ ∃ front rest, s._timer_task_heap = front :: rest ∧
          TimerTaskEarlierComp task front = true) →
        s1.refreshed = s.refreshed ++ [task]) ∧
      ((∃ front rest, s._timer_task_heap = front :: rest ∧
          TimerTaskEarlierComp task front = false) →
        s1.refreshed = s.refreshed) := by
  obtain ⟨s2, h2, hheap, hq, hp, hf, hr⟩ := refreshTimer_spec env henv s task
  cases hh : s._timer_task_heap with
  | nil =>
    refine ⟨{ s2 with _timer_task_heap := push_heap TimerTaskComp (s2._timer_task_heap ++ [task]) },
      ?_, ?_, hq, hp, hf, ?_, ?_⟩
    · simp only [custTimerTask_insert, hh, h2]
    · simp only [hheap, hh]
    · intro _; exact hr
    · rintro ⟨front, rest, h, -⟩; exact absurd h (by simp)
  | cons front rest =>
    by_cases hcmp : TimerTaskEarlierComp task front = true
    · refine ⟨{ s2 with
          _timer_task_heap := push_heap TimerTaskComp (s2._timer_task_heap ++ [task]) },
        ?_, ?_, hq, hp, hf, ?_, ?_⟩
      · simp only [custTimerTask_insert, hh, hcmp, if_true, h2]
      · simp only [hheap, hh]
      · intro _; exact hr
      · rintro ⟨f, r, h, hc⟩
        simp only [List.cons.injEq] at h
        rw [← h.1, hcmp] at hc
        exact absurd hc (by simp)
    · refine ⟨{ s with
          _timer_task_heap := push_heap TimerTaskComp (s._timer_task_heap ++ [task]) },
        ?_, ?_, rfl, rfl, rfl, ?_, ?_⟩
      · simp only [custTimerTask_insert, hh, hcmp]
        simp [hh]
      · simp only [hh]
      · rintro (h | ⟨f, r, h, hc⟩)
        · exact absurd h (by simp)
        · simp only [List.cons.injEq] at h
          rw [← h.1] at hc
          exact absurd hc hcmp
      · intro _; rfl

/-- More fuel than the queue length changes nothing: the loop of
`custTimerTask` ends when the queue is empty. -/
theorem custTimerTask_loop_fuel (env : Env) :
    ∀ (fuel : Nat) (s : TimerController), s._timer_task_queue.length ≤ fuel →
      custTimerTask_loop env (fuel + 1) s = custTimerTask_loop env fuel s := by
  intro fuel
  induction fuel with
  | zero =>
    intro s hlen
    have hq : s._timer_task_queue = [] := List.length_eq_zero.mp (by omega)
    simp [custTimerTask_loop, hq]
  | succ fuel ih =>
    intro s hlen
    rw [custTimerTask_loop]
    conv => rhs; rw [custTimerTask_loop]
    cases hq : s._timer_task_queue with
    | nil => rfl
    | cons task rest =>
      simp only
      cases h1 : custTimerTask_insert env { s with _timer_task_queue := rest } task with
      | none => rfl
      | some s1 =>
        simp only
        apply ih
        have hq1 : s1._timer_task_queue = rest := by
          simp only [custTimerTask_insert] at h1
          split at h1
          · exact absurd h1 (by simp)
          · rename_i s2 h2
            simp only [Option.some.injEq] at h1
            rw [← h1]
            simp only
            split at h2
            · split at h2
              · simp only [refreshTimer] at h2
                split at h2
                · exact absurd h2 (by simp)
                · split_ifs at h2
                  simp only [Option.some.injEq] at h2
                  rw [← h2]
              · simp only [Option.some.injEq] at h2
                rw [← h2]
            · simp only [refreshTimer] at h2
              split at h2
              · exact absurd h2 (by simp)
              · split_ifs at h2
                simp only [Option.some.injEq] at h2
                rw [← h2]
        rw [hq1]
        simp only [hq, List.length_cons] at hlen
        omega

/-- The loop of `custTimerTask` empties the queue into the heap. -/
theorem custTimerTask_loop_spec (env : Env) (henv : env.succeeds) :
    ∀ (fuel : Nat) (s : TimerController), s._timer_task_queue.length ≤ fuel →
      ∃ s1, custTimerTask_loop env fuel s = some s1 ∧
        s1._timer_task_queue = [] ∧
        s1._timer_task_heap.Perm (s._timer_task_heap ++ s._timer_task_queue) ∧
        s1._timer_task_pool = s._timer_task_pool ∧
        s1.fired = s.fired := by
  intro fuel
  induction fuel with
  | zero =>
    intro s hlen
    have hq : s._timer_task_queue = [] := List.length_eq_zero.mp (by omega)
    exact ⟨s, rfl, hq, by simp [hq], rfl, rfl⟩
  | succ fuel ih =>
    intro s hlen
    cases hq : s._timer_task_queue with
    | nil =>
      refine ⟨s, ?_, hq, by simp [hq], rfl, rfl⟩
      simp only [custTimerTask_loop, hq]
    | cons task rest =>
      obtain ⟨s1, h1, hheap, hq1, hp1, hf1, -, -⟩ :=
        custTimerTask_insert_spec env henv { s with _timer_task_queue := rest } task
      have hlen1 : s1._timer_task_queue.length ≤ fuel := by
        rw [hq1]
        simp only [hq, List.length_cons] at hlen
        simpa using hlen
      obtain ⟨s2, h2, hq2, hheap2, hp2, hf2⟩ := ih s1 hlen1
      refine ⟨s2, ?_, hq2, ?_, by rw [hp2, hp1], by rw [hf2, hf1]⟩
      · simp only [custTimerTask_loop, hq, h1]
        exact h2
      · refine hheap2.trans ?_
        rw [hheap, hq1]
        simp only
        have := push_heap_perm TimerTaskComp s._timer_task_heap task
        refine (this.append_right rest).trans ?_
        simp

/-! ## Claim C10: the drain -/

/-- C10: when the system calls succeed, `custTimerTask` returns for every
content of the submission queue, with the queue empty, and the heap then holds,
as a multiset, the tasks it held before and every task that was in the queue. -/
theorem custTimerTask_drains_queue (env : Env) (s : TimerController)
    (henv : env.succeeds) :
    ∃ s1, custTimerTask env s = some s1 ∧
      s1._timer_task_queue = [] ∧
      s1._timer_task_heap.Perm (s._timer_task_heap ++ s._timer_task_queue) := by
  obtain ⟨s1, h1, hq, hperm, -, -⟩ :=
    custTimerTask_loop_spec env henv s._timer_task_queue.length s (le_refl _)
  exact ⟨s1, h1, hq, hperm⟩

theorem notLater_refl (a : Timespec) : a.notLater a := by
  unfold Timespec.notLater
  omega

theorem notLater_trans {a b c : Timespec} (h1 : a.notLater b) (h2 : b.notLater c) :
    a.notLater c := by
  unfold Timespec.notLater at h1 h2 ⊢
  omega

theorem heap_ordered_iff (s : TimerController) :
    s.heap_ordered ↔ HeapUpTo TimerTaskComp s._timer_task_heap s._timer_task_heap.length :=
  is_heap_iff _ _ _

/-- `std::pop_heap` and `pop_back` on a non-empty heap: the front is removed, the
other elements stay, and the rest is a heap. -/
theorem pop_heap_dropLast_spec {α : Type} [Inhabited α] [DecidableEq α]
    {comp : α → α → Bool} (hc : CompOrder comp) (x : α) (rest : List α)
    (hv : HeapUpTo comp (x :: rest) (x :: rest).length) :
    (x :: (pop_heap comp (x :: rest)).dropLast).Perm (x :: rest) ∧
    HeapUpTo comp (pop_heap comp (x :: rest)).dropLast
      (pop_heap comp (x :: rest)).dropLast.length := by
  obtain ⟨hlen, hperm, hlast, hheap⟩ := pop_heap_spec hc (x :: rest) (by simp) hv
  generalize pop_heap comp (x :: rest) = r at hlen hperm hlast hheap
  have hne : r ≠ [] := by
    intro h
    rw [h] at hlen
    simp at hlen
  have hget : r.getLast hne = x := by
    rw [List.getLast_eq_getElem]
    have hidx : r.length - 1 < r.length := by
      have := List.length_pos.mpr hne
      omega
    have h1 : r.getD (r.length - 1) default = r[r.length - 1] := by
      simp [List.getD_eq_getElem?_getD, List.getElem?_eq_getElem hidx]
    rw [← h1, hlen, hlast]
    simp
  have hr : r.dropLast ++ [x] = r := by
    have := List.dropLast_append_getLast hne
    rwa [hget] at this
  refine ⟨?_, ?_⟩
  · refine List.Perm.trans ?_ hperm
    rw [← hr]
    simp only [List.dropLast_concat]
    exact @List.perm_append_comm _ [x] _
  · intro i hi hin
    have hin2 : i < r.length - 1 := by simpa using hin
    have h1 : ∀ j, j < r.length - 1 → r.dropLast.getD j default = r.getD j default := by
      intro j hj
      rw [List.getD_eq_getElem?_getD, List.getD_eq_getElem?_getD, List.getElem?_dropLast,
        if_pos hj]
    rw [h1 i hin2, h1 _ (by omega)]
    exact hheap i hi (by rw [← hlen]; exact hin2)

theorem execEarliestTimerTask_after_spec (env : Env) (henv : env.succeeds)
    (s : TimerController) (task : TimerTask) :
    ∃ s1, execEarliestTimerTask_after env s task = some s1 ∧
      s1._timer_task_heap = s._timer_task_heap ∧
      s1.fired = s.fired ∧
      s1.refreshed = s.refreshed := by
  unfold execEarliestTimerTask_after
  split_ifs with hcycle
  · obtain ⟨r, hr, h1, -, -, h4, h5, -⟩ := addTimerTask_spec env henv s task
    exact ⟨r.2, by simp only [hr], h1, h4, h5⟩
  · exact ⟨_, rfl, rfl, rfl, rfl⟩

/-- `execEarliestTimerTask` on a non-empty heap in heap order: it fires the
front, removes it from the heap, keeps the heap order and re-arms the timer for
the new front if tasks remain. -/
theorem execEarliestTimerTask_spec (env : Env) (henv : env.succeeds) (s : TimerController)
    (hheap : s.heap_ordered) (front : TimerTask) (rest : List TimerTask)
    (hs : s._timer_task_heap = front :: rest) :
    ∃ s1, execEarliestTimerTask env s = some s1 ∧
      s1.fired = s.fired ++ [front] ∧
      (front :: s1._timer_task_heap).Perm s._timer_task_heap ∧
      s1.heap_ordered ∧
      (s1._timer_task_heap = [] → s1.refreshed = s.refreshed) ∧
      (∀ f r, s1._timer_task_heap = f :: r → s1.refreshed = s.refreshed ++ [f]) := by
  have hv := (heap_ordered_iff s).mp hheap
  rw [hs] at hv
  obtain ⟨hperm, hpop⟩ := pop_heap_dropLast_spec TimerTaskComp_order front rest hv
  obtain ⟨s2, h2, hh2, hf2, hr2⟩ := execEarliestTimerTask_after_spec env henv
    { s with
      _timer_task_heap := (pop_heap TimerTaskComp s._timer_task_heap).dropLast
      fired := s.fired ++ [front] } front
  simp only [hs] at h2 hh2 hf2 hr2
  have hord : s2.heap_ordered := by
    rw [heap_ordered_iff, hh2]
    exact hpop
  cases hcase : s2._timer_task_heap with
  | nil =>
    refine ⟨s2, ?_, hf2, ?_, hord, fun _ => hr2, ?_⟩
    · simp only [execEarliestTimerTask, hs, h2, hcase]
    · rw [hh2, hs]; exact hperm
    · intro f r h
      rw [hcase] at h
      exact absurd h (by simp)
  | cons f r =>
    obtain ⟨s3, h3, hh3, -, -, hf3, hr3⟩ := refreshTimer_spec env henv s2 f
    refine ⟨s3, ?_, by rw [hf3, hf2], ?_, ?_, ?_, ?_⟩
    · simp only [execEarliestTimerTask, hs, h2, hcase, h3]
    · rw [hh3, hh2, hs]; exact hperm
    · rw [heap_ordered_iff, hh3]
      exact (heap_ordered_iff s2).mp hord
    · intro h
      rw [hh3, hcase] at h
      exact absurd h (by simp)
    · intro f1 r1 h
      rw [hh3, hcase] at h
      simp only [List.cons.injEq] at h
      rw [hr3, hr2, h.1]

/-! ## Claims C5 and C6: firing -/

/-- C6: in a controller whose heap is in heap order, when the system calls
succeed, `execEarliestTimerTask` on a non-empty heap returns after invoking
exactly one callback, that of a task of the heap whose deadline is at or before
the deadline of every task in the heap, and the heap afterwards is the old heap
without that one task (as a multiset); on an empty heap it returns with the
state unchanged, so no callback is invoked. -/
theorem execEarliestTimerTask_fires_minimum (env : Env) (s : TimerController)
    (henv : env.succeeds) (hheap : s.heap_ordered) :
    (s._timer_task_heap = [] → execEarliestTimerTask env s = some s) ∧
    (s._timer_task_heap ≠ [] →
      ∃ task s1, execEarliestTimerTask env s = some s1 ∧
        s1.fired = s.fired ++ [task] ∧
        task ∈ s._timer_task_heap ∧
        (∀ u ∈ s._timer_task_heap, task.expect_time.notLater u.expect_time) ∧
        s._timer_task_heap.Perm (task :: s1._timer_task_heap)) := by
  constructor
  · intro h
    simp only [execEarliestTimerTask, h]
  · intro hne
    cases hs : s._timer_task_heap with
    | nil => exact absurd hs hne
    | cons front rest =>
      obtain ⟨s1, h1, hf, hperm, -, -, -⟩ :=
        execEarliestTimerTask_spec env henv s hheap front rest hs
      refine ⟨front, s1, h1, hf, List.mem_cons_self _ _, ?_, ?_⟩
      · have hv := (heap_ordered_iff s).mp hheap
        rw [hs] at hv
        exact heap_front_notLater front rest hv
      · rw [← hs]; exact hperm.symm

/-- The tasks fired by successive calls come out of the heap in non-decreasing
deadline order. -/
theorem execEarliestTimerTask_repeat_spec (env : Env) (henv : env.succeeds) :
    ∀ (k : Nat) (s : TimerController), s.heap_ordered →
      ∃ s1 fs, execEarliestTimerTask_repeat env k s = some s1 ∧
        s1.fired = s.fired ++ fs ∧
        (∀ f ∈ fs, f ∈ s._timer_task_heap) ∧
        fs.Pairwise (fun a b => a.expect_time.notLater b.expect_time) := by
  intro k
  induction k with
  | zero =>
    intro s _
    exact ⟨s, [], rfl, by simp, by simp, List.Pairwise.nil⟩
  | succ k ih =>
    intro s hheap
    cases hs : s._timer_task_heap with
    | nil =>
      obtain ⟨s1, fs, h1, hf, hmem, hpair⟩ := ih s hheap
      refine ⟨s1, fs, ?_, hf, ?_, hpair⟩
      · simp only [execEarliestTimerTask_repeat, execEarliestTimerTask, hs]
        exact h1
      · rw [← hs]; exact hmem
    | cons front rest =>
      obtain ⟨s1, h1, hf, hperm, hord, -, -⟩ :=
        execEarliestTimerTask_spec env henv s hheap front rest hs
      obtain ⟨s2, fs, h2, hf2, hmem, hpair⟩ := ih s1 hord
      have hv := (heap_ordered_iff s).mp hheap
      rw [hs] at hv
      have hmin := heap_front_notLater front rest hv
      have hsub : ∀ f ∈ fs, f ∈ front :: rest := by
        intro f hfm
        rw [← hs]
        exact hperm.subset (List.mem_cons_of_mem _ (hmem f hfm))
      refine ⟨s2, front :: fs, ?_, ?_, ?_, ?_⟩
      · simp only [execEarliestTimerTask_repeat, h1]
        exact h2
      · rw [hf2, hf]; simp
      · intro f hfm
        rcases List.mem_cons.mp hfm with h | h
        · rw [h]; exact List.mem_cons_self _ _
        · exact hsub f h
      · exact List.Pairwise.cons (fun f hfm => hmin f (hsub f hfm)) hpair

/-- Successive calls fire the earliest tasks of the heap, one per call while the
heap is not empty, in non-decreasing deadline order. -/
theorem execEarliestTimerTask_repeat_exact (env : Env) (henv : env.succeeds) :
    ∀ (k : Nat) (s : TimerController), s.heap_ordered →
      ∃ s1 fs, execEarliestTimerTask_repeat env k s = some s1 ∧
        s1.fired = s.fired ++ fs ∧
        fs.length = min k s._timer_task_heap.length ∧
        s._timer_task_heap.Perm (fs ++ s1._timer_task_heap) ∧
        fs.Pairwise (fun a b => a.expect_time.notLater b.expect_time) ∧
        (∀ f ∈ fs, ∀ u ∈ s1._timer_task_heap, f.expect_time.notLater u.expect_time) := by
  intro k
  induction k with
  | zero =>
    intro s _
    exact ⟨s, [], rfl, by simp, by simp, by simp, List.Pairwise.nil, by simp⟩
  | succ k ih =>
    intro s hheap
    cases hs : s._timer_task_heap with
    | nil =>
      obtain ⟨s1, fs, h1, hf, hlen, hperm, hpair, hrem⟩ := ih s hheap
      rw [hs] at hlen hperm
      refine ⟨s1, fs, ?_, hf, ?_, hperm, hpair, hrem⟩
      · simp only [execEarliestTimerTask_repeat, execEarliestTimerTask, hs]
        exact h1
      · rw [hlen]
        simp
    | cons front rest =>
      obtain ⟨s1, h1, hf, hperm, hord, -, -⟩ :=
        execEarliestTimerTask_spec env henv s hheap front rest hs
      obtain ⟨s2, fs, h2, hf2, hlen, hperm2, hpair, hrem⟩ := ih s1 hord
      have hv := (heap_ordered_iff s).mp hheap
      rw [hs] at hv hperm
      have hmin := heap_front_notLater front rest hv
      have hsub : ∀ u ∈ fs ++ s2._timer_task_heap, u ∈ front :: rest := by
        intro u hu
        exact hperm.subset (List.mem_cons_of_mem _ (hperm2.symm.subset hu))
      have hlen1 : s1._timer_task_heap.length = rest.length := by
        have := hperm.length_eq
        simpa using this
      refine ⟨s2, front :: fs, ?_, ?_, ?_, ?_, ?_, ?_⟩
      · simp only [execEarliestTimerTask_repeat, h1]
        exact h2
      · rw [hf2, hf]; simp
      · simp only [List.length_cons, hlen, hlen1]
        omega
      · refine hperm.symm.trans ?_
        simp only [List.cons_append]
        exact List.Perm.cons _ hperm2
      · exact List.Pairwise.cons
          (fun f hfm => hmin f (hsub f (List.mem_append_left _ hfm))) hpair
      · intro f hfm u hu
        rcases List.mem_cons.mp hfm with h | h
        · rw [h]
          exact hmin u (hsub u (List.mem_append_right _ hu))
        · exact hrem f h u hu

/-- C5: starting from any controller whose heap is in heap order, `k` successive
calls of `execEarliestTimerTask` with no drain in between return (when the
system calls succeed) and invoke one callback per call as long as the heap is
not empty: the list `fs` of the tasks fired, in firing order, has
`min k (heap size)` entries, it is taken out of the heap (the old heap is `fs`
together with the heap that remains), its deadlines are in non-decreasing
lexicographic (`tv_sec`, `tv_nsec`) order, and no task that remains in the heap
has a deadline before that of a fired task. -/
theorem fires_in_deadline_order (env : Env) (s : TimerController) (k : Nat)
    (henv : env.succeeds) (hheap : s.heap_ordered) :
    ∃ s1 fs, execEarliestTimerTask_repeat env k s = some s1 ∧
      s1.fired = s.fired ++ fs ∧
      fs.length = min k s._timer_task_heap.length ∧
      s._timer_task_heap.Perm (fs ++ s1._timer_task_heap) ∧
      fs.Pairwise (fun a b => a.expect_time.notLater b.expect_time) ∧
      (∀ f ∈ fs, ∀ u ∈ s1._timer_task_heap, f.expect_time.notLater u.expect_time) :=
  execEarliestTimerTask_repeat_exact env henv k s hheap

/-- Witness of C6: the empty controller, and the sample controller, whose heap
front is due at 1 s. -/
theorem execEarliestTimerTask_fires_minimum_witness :
    execEarliestTimerTask (Env.const ⟨9, 0⟩) {} = some {} ∧
    ∃ task s1, execEarliestTimerTask (Env.const ⟨9, 0⟩) TimerController.sample = some s1 ∧
      s1.fired = TimerController.sample.fired ++ [task] ∧
      task ∈ TimerController.sample._timer_task_heap ∧
      (∀ u ∈ TimerController.sample._timer_task_heap,
        task.expect_time.notLater u.expect_time) ∧
      TimerController.sample._timer_task_heap.Perm (task :: s1._timer_task_heap) :=
  ⟨(execEarliestTimerTask_fires_minimum (Env.const ⟨9, 0⟩) {}
      (Env.const_succeeds _) (by decide)).1 rfl,
    (execEarliestTimerTask_fires_minimum (Env.const ⟨9, 0⟩) TimerController.sample
      (Env.const_succeeds _) (by decide)).2 (List.cons_ne_nil _ _)⟩

/-- Witness of C5: two successive calls on the sample controller, whose heap
holds three tasks. -/
theorem fires_in_deadline_order_witness :
    ∃ s1 fs, execEarliestTimerTask_repeat (Env.const ⟨9, 0⟩) 2 TimerController.sample
        = some s1 ∧
      s1.fired = TimerController.sample.fired ++ fs ∧
      fs.length = min 2 TimerController.sample._timer_task_heap.length ∧
      TimerController.sample._timer_task_heap.Perm (fs ++ s1._timer_task_heap) ∧
      fs.Pairwise (fun a b => a.expect_time.notLater b.expect_time) ∧
      (∀ f ∈ fs, ∀ u ∈ s1._timer_task_heap, f.expect_time.notLater u.expect_time) :=
  fires_in_deadline_order (Env.const ⟨9, 0⟩) TimerController.sample 2
    (Env.const_succeeds _) (by decide)

/-- Witness of C10: the sample controller, with two tasks in the queue. -/
theorem custTimerTask_drains_queue_witness :
    ∃ s1, custTimerTask (Env.const ⟨9, 0⟩) TimerController.sample = some s1 ∧
      s1._timer_task_queue = [] ∧
      s1._timer_task_heap.Perm
        (TimerController.sample._timer_task_heap ++ TimerController.sample._timer_task_queue) :=
  custTimerTask_drains_queue (Env.const ⟨9, 0⟩) TimerController.sample (Env.const_succeeds _)

/-! ## Claim C8: when the drain re-arms the timer -/

/-- Counterexample to C8 as stated: the heap holds one task due at 5 s and the
queue holds one task due at 5 s as well.  `custTimerTask` calls `refreshTimer`
for the queued task, although the heap is not empty and the deadline of the
task is not strictly earlier than the minimum of the heap. -/
theorem custTimerTask_refreshes_on_equal_deadline :
    ∃ s1, custTimerTask (Env.const ⟨0, 0⟩)
        { _timer_task_heap := [TimerTask.due 1 5 0]
          _timer_task_queue := [TimerTask.due 2 5 0] } = some s1 ∧
      s1.refreshed = [TimerTask.due 2 5 0] ∧
      ¬ ([TimerTask.due 1 5 0] = [] ∨
        (TimerTask.due 2 5 0).expect_time.earlier (TimerTask.due 1 5 0).expect_time) :=
  ⟨_, rfl, rfl, by decide⟩

/-- C8 (amended): in `custTimerTask` on a controller whose heap is in heap
order, the pass for the task at the head of the submission queue returns (when
the system calls succeed) and calls `refreshTimer` for that task if and only
if the task's deadline is at or before the deadline of every task in the heap
(the heap is empty, or the deadline is not later than the heap's minimum);
the rest of the drain continues from the state after that pass.  A task whose
deadline equals the current minimum therefore re-arms the timer. -/
theorem custTimerTask_refreshes_iff_not_later (env : Env) (s : TimerController)
    (task : TimerTask) (rest : List TimerTask)
    (henv : env.succeeds) (hheap : s.heap_ordered)
    (hq : s._timer_task_queue = task :: rest) :
    ∃ s1, custTimerTask_insert env { s with _timer_task_queue := rest } task = some s1 ∧
      custTimerTask env s = custTimerTask env s1 ∧
      ((∀ u ∈ s._timer_task_heap, task.expect_time.notLater u.expect_time) →
        s1.refreshed = s.refreshed ++ [task]) ∧
      (¬ (∀ u ∈ s._timer_task_heap, task.expect_time.notLater u.expect_time) →
        s1.refreshed = s.refreshed) := by
  obtain ⟨s1, h1, -, hq1, -, -, hyes, hno⟩ :=
    custTimerTask_insert_spec env henv { s with _timer_task_queue := rest } task
  simp only at hq1 hyes hno
  have hv := (heap_ordered_iff s).mp hheap
  refine ⟨s1, h1, ?_, ?_, ?_⟩
  · simp only [custTimerTask, hq, hq1, List.length_cons, custTimerTask_loop, h1]
  · intro hall
    apply hyes
    cases hs : s._timer_task_heap with
    | nil => exact Or.inl rfl
    | cons front r =>
      refine Or.inr ⟨front, r, rfl, ?_⟩
      have := hall front (by rw [hs]; exact List.mem_cons_self _ _)
      rw [← TimerTaskComp_eq_false_iff] at this
      simp only [TimerTaskEarlierComp, this, Bool.not_false]
  · intro hnall
    apply hno
    cases hs : s._timer_task_heap with
    | nil =>
      exfalso
      apply hnall
      intro u hu
      rw [hs] at hu
      exact absurd hu (List.not_mem_nil u)
    | cons front r =>
      refine ⟨front, r, rfl, ?_⟩
      cases hcmp : TimerTaskComp task front with
      | true => simp only [TimerTaskEarlierComp, hcmp, Bool.not_true]
      | false =>
        exfalso
        apply hnall
        intro u hu
        rw [hs] at hv hu
        exact notLater_trans ((TimerTaskComp_eq_false_iff _ _).mp hcmp)
          (heap_front_notLater front r hv u hu)

/-- Witness of C8 (amended): the sample controller, whose heap minimum is 1 s.
The task at the head of its queue is due at 0 s 5 ns and re-arms the timer; a
task due at 1 s (the minimum) re-arms it too; a task due at 7 s does not. -/
theorem custTimerTask_refreshes_iff_not_later_witness :
    (∃ s1, custTimerTask_insert (Env.const ⟨9, 0⟩)
        { TimerController.sample with _timer_task_queue := [TimerTask.due 5 2 0] }
        (TimerTask.due 4 0 5) = some s1 ∧
      custTimerTask (Env.const ⟨9, 0⟩) TimerController.sample
        = custTimerTask (Env.const ⟨9, 0⟩) s1 ∧
      s1.refreshed = TimerController.sample.refreshed ++ [TimerTask.due 4 0 5]) ∧
    (∃ s1, custTimerTask_insert (Env.const ⟨9, 0⟩)
        { TimerController.sample with _timer_task_queue := [] }
        (TimerTask.due 6 1 0) = some s1 ∧
      s1.refreshed = TimerController.sample.refreshed ++ [TimerTask.due 6 1 0]) ∧
    (∃ s1, custTimerTask_insert (Env.const ⟨9, 0⟩)
        { TimerController.sample with _timer_task_queue := [] }
        (TimerTask.due 4 7 0) = some s1 ∧
      s1.refreshed = TimerController.sample.refreshed) :=
  ⟨(custTimerTask_refreshes_iff_not_later (Env.const ⟨9, 0⟩) TimerController.sample
      (TimerTask.due 4 0 5) [TimerTask.due 5 2 0] (Env.const_succeeds _) (by decide) rfl).imp
      (fun _ h => ⟨h.1, h.2.1, h.2.2.1 (by decide)⟩),
    (custTimerTask_refreshes_iff_not_later (Env.const ⟨9, 0⟩)
      { TimerController.sample with _timer_task_queue := [TimerTask.due 6 1 0] }
      (TimerTask.due 6 1 0) [] (Env.const_succeeds _) (by decide) rfl).imp
      (fun _ h => ⟨h.1, h.2.2.1 (by decide)⟩),
    (custTimerTask_refreshes_iff_not_later (Env.const ⟨9, 0⟩)
      { TimerController.sample with _timer_task_queue := [TimerTask.due 4 7 0] }
      (TimerTask.due 4 7 0) [] (Env.const_succeeds _) (by decide) rfl).imp
      (fun _ h => ⟨h.1, h.2.2.2 (by decide)⟩)⟩

/-! ## Claim C9: the armed deadline is the minimum of the heap -/

/-- One pass of the drain keeps the heap order and keeps the timer on the
minimum deadline. -/
theorem custTimerTask_insert_invariant (env : Env) (henv : env.succeeds)
    (s : TimerController) (task : TimerTask) (hheap : s.heap_ordered)
    (htrack : s.timer_tracks_minimum) :
    ∃ s1, custTimerTask_insert env s task = some s1 ∧
      s1._timer_task_queue = s._timer_task_queue ∧
      s1.heap_ordered ∧ s1.timer_tracks_minimum := by
  obtain ⟨s1, h1, hh1, hq1, -, -, hyes, hno⟩ := custTimerTask_insert_spec env henv s task
  have hv := (heap_ordered_iff s).mp hheap
  obtain ⟨hperm, hpush⟩ := push_heap_spec TimerTaskComp_order s._timer_task_heap task hv
  rw [← hh1] at hperm hpush
  refine ⟨s1, h1, hq1, (heap_ordered_iff s1).mpr hpush, ?_⟩
  intro _
  have hmem : ∀ u, u ∈ s1._timer_task_heap ↔ u = task ∨ u ∈ s._timer_task_heap := by
    intro u
    rw [hperm.mem_iff, List.mem_cons]
  cases hs : s._timer_task_heap with
  | nil =>
    refine ⟨task, ?_, ⟨task, (hmem task).mpr (Or.inl rfl), rfl⟩, ?_⟩
    · rw [hyes (Or.inl hs)]
      exact List.getLast?_concat _
    · intro u hu
      rcases (hmem u).mp hu with h | h
      · rw [h]; exact notLater_refl _
      · rw [hs] at h
        exact absurd h (List.not_mem_nil u)
  | cons front rest =>
    rw [hs] at hv
    have hfront := heap_front_notLater front rest hv
    cases hcmp : TimerTaskComp task front with
    | false =>
      have hearly : TimerTaskEarlierComp task front = true := by
        simp only [TimerTaskEarlierComp, hcmp, Bool.not_false]
      refine ⟨task, ?_, ⟨task, (hmem task).mpr (Or.inl rfl), rfl⟩, ?_⟩
      · rw [hyes (Or.inr ⟨front, rest, hs, hearly⟩)]
        exact List.getLast?_concat _
      · intro u hu
        rcases (hmem u).mp hu with h | h
        · rw [h]; exact notLater_refl _
        · rw [hs] at h
          exact notLater_trans ((TimerTaskComp_eq_false_iff _ _).mp hcmp) (hfront u h)
    | true =>
      have hearly : TimerTaskEarlierComp task front = false := by
        simp only [TimerTaskEarlierComp, hcmp, Bool.not_true]
      obtain ⟨r, hr, ⟨m, hm, hmr⟩, hmin⟩ := htrack (by rw [hs]; simp)
      refine ⟨r, ?_, ⟨m, (hmem m).mpr (Or.inr hm), hmr⟩, ?_⟩
      · rw [hno ⟨front, rest, hs, hearly⟩]
        exact hr
      · intro u hu
        rcases (hmem u).mp hu with h | h
        · rw [h]
          have h1 := hmin front (by rw [hs]; exact List.mem_cons_self _ _)
          have h2 := (TimerTaskComp_eq_true_iff _ _).mp hcmp
          unfold Timespec.notLater at h1 ⊢
          unfold Timespec.earlier at h2
          omega
        · exact hmin u h

/-- The loop of `custTimerTask` keeps the heap order and keeps the timer on the
minimum deadline. -/
theorem custTimerTask_loop_invariant (env : Env) (henv : env.succeeds) :
    ∀ (fuel : Nat) (s : TimerController), s.heap_ordered → s.timer_tracks_minimum →
      ∃ s1, custTimerTask_loop env fuel s = some s1 ∧
        s1.heap_ordered ∧ s1.timer_tracks_minimum := by
  intro fuel
  induction fuel with
  | zero =>
    intro s hheap htrack
    exact ⟨s, rfl, hheap, htrack⟩
  | succ fuel ih =>
    intro s hheap htrack
    cases hq : s._timer_task_queue with
    | nil =>
      refine ⟨s, ?_, hheap, htrack⟩
      simp only [custTimerTask_loop, hq]
    | cons task rest =>
      obtain ⟨s1, h1, -, hheap1, htrack1⟩ :=
        custTimerTask_insert_invariant env henv { s with _timer_task_queue := rest } task
          hheap htrack
      obtain ⟨s2, h2, hheap2, htrack2⟩ := ih s1 hheap1 htrack1
      refine ⟨s2, ?_, hheap2, htrack2⟩
      simp only [custTimerTask_loop, hq, h1]
      exact h2

/-- C9: on a controller whose heap is in heap order, when the system calls
succeed, the predicate "if the heap is non-empty, the deadline last passed to
`refreshTimer` is the minimum deadline in the heap" is kept by the loop-thread
operations, together with the heap order: `custTimerTask` preserves it for
every queue content, `execEarliestTimerTask` establishes it (it holds after the
call whenever tasks remain in the heap), and `addTimerTask` changes neither the
heap nor the last refreshed task, so it does not disturb it. -/
theorem timer_tracks_minimum_invariant (env : Env) (s : TimerController)
    (henv : env.succeeds) (hheap : s.heap_ordered) :
    (s.timer_tracks_minimum →
      ∃ s1, custTimerTask env s = some s1 ∧ s1.heap_ordered ∧ s1.timer_tracks_minimum) ∧
    (∃ s1, execEarliestTimerTask env s = some s1 ∧ s1.heap_ordered ∧
      s1.timer_tracks_minimum) ∧
    (∀ task, s.timer_tracks_minimum →
      ∃ r, addTimerTask env s task = some r ∧
        r.2._timer_task_heap = s._timer_task_heap ∧ r.2.refreshed = s.refreshed ∧
        r.2.heap_ordered ∧ r.2.timer_tracks_minimum) := by
  refine ⟨?_, ?_, ?_⟩
  · intro htrack
    exact custTimerTask_loop_invariant env henv _ s hheap htrack
  · cases hs : s._timer_task_heap with
    | nil =>
      refine ⟨s, ?_, hheap, ?_⟩
      · simp only [execEarliestTimerTask, hs]
      · intro hne
        exact absurd hs hne
    | cons front rest =>
      obtain ⟨s1, h1, -, -, hord, -, href⟩ :=
        execEarliestTimerTask_spec env henv s hheap front rest hs
      refine ⟨s1, h1, hord, ?_⟩
      intro hne
      cases hs1 : s1._timer_task_heap with
      | nil => exact absurd hs1 hne
      | cons f r =>
        have hv := (heap_ordered_iff s1).mp hord
        rw [hs1] at hv
        refine ⟨f, ?_, ⟨f, List.mem_cons_self _ _, rfl⟩, heap_front_notLater f r hv⟩
        rw [href f r hs1]
        exact List.getLast?_concat _
  · intro task htrack
    obtain ⟨r, hr, h1, -, -, -, h5, -⟩ := addTimerTask_spec env henv s task
    refine ⟨r, hr, h1, h5, ?_, ?_⟩
    · unfold TimerController.heap_ordered at hheap ⊢
      rw [h1]; exact hheap
    · unfold TimerController.timer_tracks_minimum at htrack ⊢
      rw [h1, h5]; exact htrack

/-- The sample controller satisfies the predicate of C9. -/
theorem sample_timer_tracks_minimum : TimerController.sample.timer_tracks_minimum :=
  fun _ => ⟨TimerTask.due 1 1 0, rfl, ⟨TimerTask.due 1 1 0, by decide, rfl⟩, by decide⟩

/-- Witness of C9: the sample controller, whose timer was last armed for the
task due at 1 s, the front of its heap. -/
theorem timer_tracks_minimum_invariant_witness :
    (∃ s1, custTimerTask (Env.const ⟨9, 0⟩) TimerController.sample = some s1 ∧
      s1.heap_ordered ∧ s1.timer_tracks_minimum) ∧
    (∃ s1, execEarliestTimerTask (Env.const ⟨9, 0⟩) TimerController.sample = some s1 ∧
      s1.heap_ordered ∧ s1.timer_tracks_minimum) ∧
    (∀ task,
      ∃ r, addTimerTask (Env.const ⟨9, 0⟩) TimerController.sample task = some r ∧
        r.2._timer_task_heap = TimerController.sample._timer_task_heap ∧
        r.2.refreshed = TimerController.sample.refreshed ∧
        r.2.heap_ordered ∧ r.2.timer_tracks_minimum) :=
  ⟨(timer_tracks_minimum_invariant (Env.const ⟨9, 0⟩) TimerController.sample
      (Env.const_succeeds _) (by decide)).1 sample_timer_tracks_minimum,
    (timer_tracks_minimum_invariant (Env.const ⟨9, 0⟩) TimerController.sample
      (Env.const_succeeds _) (by decide)).2.1,
    fun task => (timer_tracks_minimum_invariant (Env.const ⟨9, 0⟩) TimerController.sample
      (Env.const_succeeds _) (by decide)).2.2 task sample_timer_tracks_minimum⟩

/-! ## Claims C11 and C19: the delay armed by `refreshTimer` -/

/-- The state that `refreshTimer` leaves when its three system calls succeed. -/
theorem refreshTimer_eq (env : Env) (s : TimerController) (task : TimerTask) (now : Timespec)
    (hclock : env.clock_gettime s.syscalls = some now)
    (hset : env.timerfd_settime (s.syscalls + 1) = true)
    (hctl : env.epoll_ctl (s.syscalls + 2) = true) :
    refreshTimer env s task = some { s with
      itimer := some
        { it_value := refreshTimer_it_value task.expect_time now
          it_interval := { tv_sec := 0, tv_nsec := 1000000 } }
      refreshed := s.refreshed ++ [task]
      syscalls := s.syscalls + 3 } := by
  simp [refreshTimer, hclock, hset, hctl]

/-- C11: for every task deadline and clock reading `now`, both with
`0 <= tv_nsec < 10^9`, `refreshTimer` (its system calls succeeding) arms the
timer with an `it_value` that depends on the deadline and `now` only, not on
the interval: if the deadline is at or before `now` it is (0 s, 1 ns);
otherwise it is (sec, nsec) with `sec >= 0`, `0 <= nsec < 10^9` and
`sec * 10^9 + nsec` equal to the deadline minus `now` in nanoseconds. -/
theorem refreshTimer_arms_delay (env : Env) (s : TimerController) (task : TimerTask)
    (now : Timespec)
    (hclock : env.clock_gettime s.syscalls = some now)
    (hset : env.timerfd_settime (s.syscalls + 1) = true)
    (hctl : env.epoll_ctl (s.syscalls + 2) = true)
    (hd : 0 ≤ task.expect_time.tv_nsec ∧ task.expect_time.tv_nsec < 1000000000)
    (hn : 0 ≤ now.tv_nsec ∧ now.tv_nsec < 1000000000) :
    ∃ s1 it, refreshTimer env s task = some s1 ∧ s1.itimer = some it ∧
      it.it_value = refreshTimer_it_value task.expect_time now ∧
      (task.expect_time.toNanos ≤ now.toNanos → it.it_value = ⟨0, 1⟩) ∧
      (now.toNanos < task.expect_time.toNanos →
        0 ≤ it.it_value.tv_sec ∧ 0 ≤ it.it_value.tv_nsec ∧
        it.it_value.tv_nsec < 1000000000 ∧
        it.it_value.tv_sec * 1000000000 + it.it_value.tv_nsec
          = task.expect_time.toNanos - now.toNanos) := by
  refine ⟨_, _, refreshTimer_eq env s task now hclock hset hctl, rfl, rfl, ?_, ?_⟩
  · intro hle
    simp only [Timespec.toNanos] at hle
    simp only [refreshTimer_it_value]
    rw [if_pos (by omega)]
  · intro hlt
    simp only [Timespec.toNanos] at hlt ⊢
    simp only [refreshTimer_it_value]
    rw [if_neg (by omega)]
    split_ifs with hneg
    · simp only
      omega
    · simp only
      omega

/-- Witness of C11: a task due at 7 s 5 ns, the clock at 5 s 999 999 999 ns. -/
theorem refreshTimer_arms_delay_witness :
    ∃ s1 it, refreshTimer (Env.const ⟨5, 999999999⟩) {} (TimerTask.due 1 7 5) = some s1 ∧
      s1.itimer = some it ∧
      it.it_value = refreshTimer_it_value (TimerTask.due 1 7 5).expect_time ⟨5, 999999999⟩ ∧
      it.it_value.tv_sec * 1000000000 + it.it_value.tv_nsec
        = (TimerTask.due 1 7 5).expect_time.toNanos - Timespec.toNanos ⟨5, 999999999⟩ :=
  (refreshTimer_arms_delay (Env.const ⟨5, 999999999⟩) {} (TimerTask.due 1 7 5)
    ⟨5, 999999999⟩ rfl rfl rfl (by decide) (by decide)).imp
    (fun _ h => h.imp (fun _ h1 => ⟨h1.1, h1.2.1, h1.2.2.1, (h1.2.2.2.2 (by decide)).2.2.2⟩))

/-- C19: for every deadline and clock reading with nanosecond fields in
`[0, 10^9)`, the `it_value` that `refreshTimer` arms is strictly positive, so it
is never (0 s, 0 ns), and the `it_interval` it programs is
(0 s, 1 000 000 ns). -/
theorem refreshTimer_delay_positive (env : Env) (s : TimerController) (task : TimerTask)
    (now : Timespec)
    (hclock : env.clock_gettime s.syscalls = some now)
    (hset : env.timerfd_settime (s.syscalls + 1) = true)
    (hctl : env.epoll_ctl (s.syscalls + 2) = true)
    (hd : 0 ≤ task.expect_time.tv_nsec ∧ task.expect_time.tv_nsec < 1000000000)
    (hn : 0 ≤ now.tv_nsec ∧ now.tv_nsec < 1000000000) :
    ∃ s1 it, refreshTimer env s task = some s1 ∧ s1.itimer = some it ∧
      it.it_value.positive ∧ it.it_value ≠ ⟨0, 0⟩ ∧
      it.it_interval = ⟨0, 1000000⟩ := by
  have hpos : (refreshTimer_it_value task.expect_time now).positive := by
    simp only [refreshTimer_it_value, Timespec.positive]
    split_ifs with hdue hneg
    · simp
    · simp only
      omega
    · simp only
      omega
  refine ⟨_, _, refreshTimer_eq env s task now hclock hset hctl, rfl, hpos, ?_, rfl⟩
  intro h0
  simp only at h0
  rw [h0] at hpos
  simp [Timespec.positive] at hpos

/-- Witness of C19: a task due at 5 s 0 ns, the clock at 5 s 0 ns. -/
theorem refreshTimer_delay_positive_witness :
    ∃ s1 it, refreshTimer (Env.const ⟨5, 0⟩) {} (TimerTask.due 1 5 0) = some s1 ∧
      s1.itimer = some it ∧ it.it_value.positive ∧ it.it_value ≠ ⟨0, 0⟩ ∧
      it.it_interval = ⟨0, 1000000⟩ :=
  refreshTimer_delay_positive (Env.const ⟨5, 0⟩) {} (TimerTask.due 1 5 0) ⟨5, 0⟩
    rfl rfl rfl (by decide) (by decide)

/-! ## Claim C18: what `addTimerTask` changes -/

/-- C18: `addTimerTask` (its system calls succeeding) returns, and it changes
only the create-time and the deadline of the task, the submission queue, to
which it appends the task as the one new entry at the tail, and the eventfd
counter, to which it adds `EVENT_ADD_TASK` (and the count of system calls made).
The heap, the armed timer and every other field of the controller are as
before, and so are the callback, the interval and the recurrence flag of the
task. -/
theorem addTimerTask_frame (env : Env) (s : TimerController) (task : TimerTask)
    (henv : env.succeeds) :
    ∃ r, addTimerTask env s task = some r ∧
      r.2 = { s with
        _timer_task_queue := s._timer_task_queue ++ [r.1]
        eventfd_counter := s.eventfd_counter + env.EVENT_ADD_TASK
        syscalls := r.2.syscalls } ∧
      r.1 = { task with create_time := r.1.create_time, expect_time := r.1.expect_time } ∧
      r.2._timer_task_heap = s._timer_task_heap ∧ r.2.itimer = s.itimer ∧
      r.1.fun_ = task.fun_ ∧ r.1.interval = task.interval ∧
      r.1.is_cycle = task.is_cycle := by
  by_cases hunset : task.create_time.tv_sec = 0 ∧ task.create_time.tv_nsec = 0
  · obtain ⟨now, hnow⟩ := Option.isSome_iff_exists.mp (henv s.syscalls).1
    obtain ⟨r, hr, ht, hs⟩ := addTimerTask_unset env s task now hunset hnow (henv _).2.2.2
    refine ⟨r, hr, ?_, ?_, ?_, ?_, ?_, ?_, ?_⟩
    · conv => lhs; rw [hs]
      rw [hs]
    · conv => lhs; rw [ht]
      rw [ht]
    all_goals first | rw [hs] | rw [ht]
  · obtain ⟨r, hr, ht, hs⟩ := addTimerTask_set env s task hunset (henv _).2.2.2
    refine ⟨r, hr, ?_, ?_, ?_, ?_, ?_, ?_, ?_⟩
    · conv => lhs; rw [hs]
      rw [hs]
    · conv => lhs; rw [ht]
      rw [ht]
    all_goals first | rw [hs] | rw [ht]

/-- Witness of C18: a fresh 10 ms task submitted to the sample controller. -/
theorem addTimerTask_frame_witness :
    ∃ r, addTimerTask (Env.const ⟨5, 7⟩) TimerController.sample (TimerTask.fresh 9 10 true)
        = some r ∧
      r.2 = { TimerController.sample with
        _timer_task_queue := TimerController.sample._timer_task_queue ++ [r.1]
        eventfd_counter := TimerController.sample.eventfd_counter + 1
        syscalls := r.2.syscalls } ∧
      r.1 = { TimerTask.fresh 9 10 true with
        create_time := r.1.create_time, expect_time := r.1.expect_time } ∧
      r.2._timer_task_heap = TimerController.sample._timer_task_heap ∧
      r.2.itimer = TimerController.sample.itimer ∧
      r.1.fun_ = (TimerTask.fresh 9 10 true).fun_ ∧
      r.1.interval = (TimerTask.fresh 9 10 true).interval ∧
      r.1.is_cycle = (TimerTask.fresh 9 10 true).is_cycle :=
  addTimerTask_frame (Env.const ⟨5, 7⟩) TimerController.sample (TimerTask.fresh 9 10 true)
    (Env.const_succeeds _)

/-! ## Exact results of a fire and of a drain -/

theorem execEarliestTimerTask_after_exact (env : Env) (henv : env.succeeds)
    (s : TimerController) (task : TimerTask) :
    ∃ s1, execEarliestTimerTask_after env s task = some s1 ∧
      s1._timer_task_heap = s._timer_task_heap ∧
      s1.fired = s.fired ∧
      (task.is_cycle = false →
        s1._timer_task_queue = s._timer_task_queue ∧
        s1._timer_task_pool = s._timer_task_pool ++ [task.reset]) ∧
      (task.is_cycle = true →
        s1._timer_task_pool = s._timer_task_pool ∧
        ∃ r, addTimerTask env s task = some r ∧
          s1._timer_task_queue = s._timer_task_queue ++ [r.1]) := by
  unfold execEarliestTimerTask_after
  split_ifs with hcycle
  · obtain ⟨r, hr, h1, h2, h3, h4, -, -⟩ := addTimerTask_spec env henv s task
    refine ⟨r.2, by simp only [hr], h1, h4, ?_, ?_⟩
    · intro hf
      rw [hcycle] at hf
      exact absurd hf (by simp)
    · intro _
      exact ⟨h3, r, hr, h2⟩
  · refine ⟨_, rfl, rfl, rfl, ?_, ?_⟩
    · intro _
      exact ⟨rfl, rfl⟩
    · intro ht
      exact absurd ht hcycle

/-- `execEarliestTimerTask` on a non-empty heap, in any order: the front is
fired and `pop_heap`, `pop_back` give the new heap; a one-shot task goes,
reset, to the pool, a recurring task goes through `addTimerTask` to the tail of
the queue. -/
theorem execEarliestTimerTask_exact (env : Env) (henv : env.succeeds) (s : TimerController)
    (front : TimerTask) (rest : List TimerTask)
    (hs : s._timer_task_heap = front :: rest) :
    ∃ s1, execEarliestTimerTask env s = some s1 ∧
      s1._timer_task_heap = (pop_heap TimerTaskComp (front :: rest)).dropLast ∧
      s1.fired = s.fired ++ [front] ∧
      (front.is_cycle = false →
        s1._timer_task_queue = s._timer_task_queue ∧
        s1._timer_task_pool = s._timer_task_pool ++ [front.reset]) ∧
      (front.is_cycle = true →
        s1._timer_task_pool = s._timer_task_pool ∧
        ∃ s0 r, addTimerTask env s0 front = some r ∧
          s1._timer_task_queue = s._timer_task_queue ++ [r.1]) := by
  obtain ⟨s2, h2, hh2, hf2, hone, hcyc⟩ := execEarliestTimerTask_after_exact env henv
    { s with
      _timer_task_heap := (pop_heap TimerTaskComp s._timer_task_heap).dropLast
      fired := s.fired ++ [front] } front
  simp only [hs] at h2 hh2 hf2 hone hcyc
  cases hcase : s2._timer_task_heap with
  | nil =>
    refine ⟨s2, ?_, hh2, hf2, hone, ?_⟩
    · simp only [execEarliestTimerTask, hs, h2, hcase]
    · intro hc
      obtain ⟨hp, r, hr, hq⟩ := hcyc hc
      exact ⟨hp, _, r, hr, hq⟩
  | cons f r =>
    obtain ⟨s3, h3, hh3, hq3, hp3, hf3, -⟩ := refreshTimer_spec env henv s2 f
    refine ⟨s3, ?_, by rw [hh3, hh2], by rw [hf3, hf2], ?_, ?_⟩
    · simp only [execEarliestTimerTask, hs, h2, hcase, h3]
    · intro hc
      rw [hq3, hp3]
      exact hone hc
    · intro hc
      obtain ⟨hp, r1, hr1, hq⟩ := hcyc hc
      rw [hq3, hp3]
      exact ⟨hp, _, r1, hr1, hq⟩

/-! ## Claim C17: a timer event can fire a task before its deadline -/

/-- C17, the code at the failing input: after `init`, a one-shot task with an
interval of 50 000 ms is submitted while the clock reads 100 s, so its deadline
is 150 s.  The next `epoll_wait` returns the eventfd and the timerfd in one
batch (the timer ticks every millisecond through `it_interval` once it has
expired), and the clock still reads 100 s.  `loop` drains the task into the
heap, where `refreshTimer` arms the timer for the 50 s that remain, and then
handles the timerfd event of the same batch: `execEarliestTimerTask` invokes
the callback of the task, whose deadline is not at or before the current
time. -/
theorem loop_fires_task_before_deadline :
    ∃ r0 r1 s2,
      init (Env.const ⟨100, 0⟩) {} = some r0 ∧
      addTimerTask (Env.const ⟨100, 0⟩) r0.2 (TimerTask.fresh 1 50000 false) = some r1 ∧
      r1.1.expect_time = ⟨150, 0⟩ ∧
      loop (Env.const ⟨100, 0⟩) [Wake.ready [⟨3, 0⟩, ⟨4, 0⟩]] r1.2 = some (false, s2) ∧
      s2.fired = [r1.1] ∧
      s2.itimer = some ⟨⟨0, 1000000⟩, ⟨50, 0⟩⟩ ∧
      ¬ r1.1.expect_time.notLater ⟨100, 0⟩ :=
  ⟨_, _, _, rfl, rfl, by decide, rfl, rfl, rfl, by decide⟩

/-- A fire invokes the callback of the front task whatever the clock reads:
`execEarliestTimerTask` does not compare the deadline with the current time. -/
theorem execEarliestTimerTask_fires_front (env : Env) (s : TimerController)
    (henv : env.succeeds) :
    (s._timer_task_heap = [] → execEarliestTimerTask env s = some s) ∧
    (∀ front rest, s._timer_task_heap = front :: rest →
      ∃ s1, execEarliestTimerTask env s = some s1 ∧ s1.fired = s.fired ++ [front]) := by
  constructor
  · intro h
    simp only [execEarliestTimerTask, h]
  · intro front rest hs
    obtain ⟨s1, h1, -, hf, -, -⟩ := execEarliestTimerTask_exact env henv s front rest hs
    exact ⟨s1, h1, hf⟩

/-- When the timer-ready event is the expiry of the armed deadline, no task fires
early: on a heap in heap order whose minimum deadline was the last one passed
to `refreshTimer`, if that deadline is at or before `now`, the task that
`execEarliestTimerTask` fires has its deadline at or before `now`. -/
theorem fired_task_is_due (env : Env) (s : TimerController) (front : TimerTask)
    (rest : List TimerTask) (now : Timespec)
    (henv : env.succeeds) (hheap : s.heap_ordered) (htrack : s.timer_tracks_minimum)
    (hs : s._timer_task_heap = front :: rest)
    (hdue : ∀ r, s.refreshed.getLast? = some r → r.expect_time.notLater now) :
    ∃ s1, execEarliestTimerTask env s = some s1 ∧ s1.fired = s.fired ++ [front] ∧
      front.expect_time.notLater now := by
  obtain ⟨s1, h1, -, hf, -, -⟩ := execEarliestTimerTask_exact env henv s front rest hs
  refine ⟨s1, h1, hf, ?_⟩
  obtain ⟨r, hr, ⟨m, hm, hmr⟩, -⟩ := htrack (by rw [hs]; simp)
  have hv := (heap_ordered_iff s).mp hheap
  rw [hs] at hv hm
  have h2 := heap_front_notLater front rest hv m hm
  rw [hmr] at h2
  exact notLater_trans h2 (hdue r hr)

/-! ## Claims C15 and C20: `init`, and the heap order -/

/-- The first `init` when every system call succeeds. -/
theorem init_spec (env : Env) (henv : env.succeeds) (hfd : env.creates_descriptors)
    (s : TimerController) (hinit : s._initialized = false) :
    ∃ r, init env s = some r ∧ r.1 = true ∧ r.2._initialized = true ∧
      r.2._timer_task_heap = make_heap TimerTaskComp s._timer_task_heap ∧
      r.2._timer_task_queue = s._timer_task_queue ∧
      r.2.loop_threads = s.loop_threads + 1 ∧
      r.2.itimer = some ⟨⟨0, 1000000⟩, ⟨1, 0⟩⟩ := by
  have h1 : ¬ env.eventfd s.syscalls < 0 := not_lt.mpr (hfd _).1
  have h2 : ¬ env.timerfd_create (s.syscalls + 1) < 0 := not_lt.mpr (hfd _).2.1
  have h3 : ¬ env.epoll_create1 (s.syscalls + 1 + 1 + 1) < 0 := not_lt.mpr (hfd _).2.2
  simp [init, init_epoll, hinit, h1, h2, h3, (henv _).2.1, (henv _).2.2.1]

/-- C15: after a successful `init()`, which has returned `true`, a further
`init()` in any environment returns `true` and leaves the controller state as
it is: every field is unchanged, so no primitive is created again, the heap is
untouched and no second loop thread is started. -/
theorem init_twice (env env2 : Env) (s : TimerController) (r : Bool × TimerController)
    (h : init env s = some r) :
    r.1 = true ∧ r.2._initialized = true ∧ init env2 r.2 = some (true, r.2) := by
  have key : r.1 = true ∧ r.2._initialized = true := by
    by_cases h0 : s._initialized = true
    · simp only [init, h0, if_true, Option.some.injEq] at h
      rw [← h]
      exact ⟨rfl, h0⟩
    · have hf : s._initialized = false := by
        cases hb : s._initialized
        · rfl
        · exact absurd hb h0
      simp only [init, init_epoll, hf, Bool.false_eq_true, if_false] at h
      split_ifs at h
      simp only [Option.some.injEq] at h
      rw [← h]
      exact ⟨rfl, rfl⟩
  refine ⟨key.1, key.2, ?_⟩
  simp only [init, key.2, if_true]

/-- Witness of C15: `init` on the controller as constructed, then `init` again
at a later clock reading. -/
theorem init_twice_witness :
    ∃ r, init (Env.const ⟨5, 0⟩) {} = some r ∧
      r.1 = true ∧ r.2._initialized = true ∧ r.2.loop_threads = 1 ∧
      init (Env.const ⟨9, 0⟩) r.2 = some (true, r.2) :=
  ⟨_, rfl,
    (init_twice (Env.const ⟨5, 0⟩) (Env.const ⟨9, 0⟩) {} _ rfl).1,
    (init_twice (Env.const ⟨5, 0⟩) (Env.const ⟨9, 0⟩) {} _ rfl).2.1, rfl,
    (init_twice (Env.const ⟨5, 0⟩) (Env.const ⟨9, 0⟩) {} _ rfl).2.2⟩

theorem Env.const_creates_descriptors (now : Timespec) :
    (Env.const now).creates_descriptors := by
  intro n
  simp [Env.const]

/-- C20: the heap order of `_timer_task_heap` under `TimerTaskComp` (no task has
a deadline earlier than that of its parent, so the front carries a minimum
deadline) holds for the empty heap after `init`, is kept by the insertion of
`custTimerTask` (`emplace_back` and `push_heap`) and by the removal of
`execEarliestTimerTask` (`pop_heap` and `pop_back`), the system calls
succeeding. -/
theorem heap_order_invariant (env : Env) (henv : env.succeeds)
    (hfd : env.creates_descriptors) :
    (∀ s : TimerController, s.heap_ordered ↔
      ∀ i, 0 < i → i < s._timer_task_heap.length →
        (s._timer_task_heap.getD ((i - 1) / 2) default).expect_time.notLater
          (s._timer_task_heap.getD i default).expect_time) ∧
    (∀ (s : TimerController) (front : TimerTask) (rest : List TimerTask),
      s.heap_ordered → s._timer_task_heap = front :: rest →
      ∀ u ∈ s._timer_task_heap, front.expect_time.notLater u.expect_time) ∧
    (∀ s : TimerController, s._initialized = false → s._timer_task_heap = [] →
      ∃ r, init env s = some r ∧ r.2._timer_task_heap = [] ∧ r.2.heap_ordered) ∧
    (∀ (s : TimerController) (task : TimerTask), s.heap_ordered →
      ∃ s1, custTimerTask_insert env s task = some s1 ∧
        s1._timer_task_heap = push_heap TimerTaskComp (s._timer_task_heap ++ [task]) ∧
        s1.heap_ordered) ∧
    (∀ (s : TimerController) (front : TimerTask) (rest : List TimerTask),
      s.heap_ordered → s._timer_task_heap = front :: rest →
      ∃ s1, execEarliestTimerTask env s = some s1 ∧
        s1._timer_task_heap = (pop_heap TimerTaskComp s._timer_task_heap).dropLast ∧
        s1.heap_ordered) := by
  refine ⟨?_, ?_, ?_, ?_, ?_⟩
  · intro s
    rw [heap_ordered_iff]
    unfold HeapUpTo
    constructor
    · intro h i hi hin
      exact (TimerTaskComp_eq_false_iff _ _).mp (h i hi hin)
    · intro h i hi hin
      exact (TimerTaskComp_eq_false_iff _ _).mpr (h i hi hin)
  · intro s front rest hheap hs
    have hv := (heap_ordered_iff s).mp hheap
    rw [hs] at hv ⊢
    exact heap_front_notLater front rest hv
  · intro s hinit hs
    obtain ⟨r, hr, -, -, hh, -, -, -⟩ := init_spec env henv hfd s hinit
    have hnil : r.2._timer_task_heap = [] := by
      rw [hh, hs]
      rfl
    refine ⟨r, hr, hnil, ?_⟩
    unfold TimerController.heap_ordered
    rw [hnil]
    rfl
  · intro s task hheap
    obtain ⟨s1, h1, hh1, -, -, -, -, -⟩ := custTimerTask_insert_spec env henv s task
    have hv := (heap_ordered_iff s).mp hheap
    obtain ⟨-, hpush⟩ := push_heap_spec TimerTaskComp_order s._timer_task_heap task hv
    rw [← hh1] at hpush
    exact ⟨s1, h1, hh1, (heap_ordered_iff s1).mpr hpush⟩
  · intro s front rest hheap hs
    obtain ⟨s1, h1, -, -, hord, -, -⟩ :=
      execEarliestTimerTask_spec env henv s hheap front rest hs
    obtain ⟨s2, h2, hh2, -, -, -⟩ := execEarliestTimerTask_exact env henv s front rest hs
    rw [h1] at h2
    simp only [Option.some.injEq] at h2
    subst h2
    refine ⟨s1, h1, ?_, hord⟩
    rw [hh2, hs]

/-- Witness of C20: `init` on the controller as constructed, and an insertion
into and a removal from the heap of the sample controller. -/
theorem heap_order_invariant_witness :
    (∀ u ∈ TimerController.sample._timer_task_heap,
      (TimerTask.due 1 1 0).expect_time.notLater u.expect_time) ∧
    (∃ r, init (Env.const ⟨5, 0⟩) {} = some r ∧ r.2._timer_task_heap = [] ∧
      r.2.heap_ordered) ∧
    (∃ s1, custTimerTask_insert (Env.const ⟨5, 0⟩) TimerController.sample
        (TimerTask.due 4 0 5) = some s1 ∧
      s1._timer_task_heap = push_heap TimerTaskComp
        (TimerController.sample._timer_task_heap ++ [TimerTask.due 4 0 5]) ∧
      s1.heap_ordered) ∧
    (∃ s1, execEarliestTimerTask (Env.const ⟨5, 0⟩) TimerController.sample = some s1 ∧
      s1._timer_task_heap
        = (pop_heap TimerTaskComp TimerController.sample._timer_task_heap).dropLast ∧
      s1.heap_ordered) :=
  ⟨(heap_order_invariant (Env.const ⟨5, 0⟩) (Env.const_succeeds _)
      (Env.const_creates_descriptors _)).2.1 TimerController.sample (TimerTask.due 1 1 0)
      [TimerTask.due 2 3 0, TimerTask.due 3 2 0] (by decide) rfl,
    (heap_order_invariant (Env.const ⟨5, 0⟩) (Env.const_succeeds _)
      (Env.const_creates_descriptors _)).2.2.1 {} rfl rfl,
    (heap_order_invariant (Env.const ⟨5, 0⟩) (Env.const_succeeds _)
      (Env.const_creates_descriptors _)).2.2.2.1 TimerController.sample (TimerTask.due 4 0 5)
      (by decide),
    (heap_order_invariant (Env.const ⟨5, 0⟩) (Env.const_succeeds _)
      (Env.const_creates_descriptors _)).2.2.2.2 TimerController.sample (TimerTask.due 1 1 0)
      [TimerTask.due 2 3 0, TimerTask.due 3 2 0] (by decide) rfl⟩

/-! ## Claim C13: the shutdown value ends the loop -/

/-- Events handled without `loop` returning can be split off the front of the
batch. -/
theorem loop_for_append (env : Env) (post : List Event) :
    ∀ (pre : List Event) (s s1 : TimerController), loop_for env pre s = some (false, s1) →
      loop_for env (pre ++ post) s = loop_for env post s1 := by
  intro pre
  induction pre with
  | nil =>
    intro s s1 h
    simp only [loop_for, Option.some.injEq, Prod.mk.injEq, true_and] at h
    rw [h]
    rfl
  | cons e rest ih =>
    intro s s1 h
    simp only [loop_for, List.cons_append] at h ⊢
    cases he : loop_event env s e with
    | none =>
      rw [he] at h
      exact absurd h (by simp)
    | some r =>
      obtain ⟨b, s2⟩ := r
      rw [he] at h
      cases b with
      | true =>
        simp only [Option.some.injEq, Prod.mk.injEq] at h
        exact absurd h.1 (by simp)
      | false =>
        simp only at h ⊢
        exact ih s2 s1 h

/-- C13: the loop is running (`_stop` is false) and has handled the events `pre`
of a batch without returning, which left the controller in state `s1`; the
next event `e` of the batch is the eventfd.  If the value read from the eventfd
is at or above `EVENT_STOP`, `loop` calls `close()` and returns: whatever events
`post` follow in the batch and whatever later wake-ups `ws` would come, the
log of invoked callbacks, the heap and the queue are as they were at the
read.  If the value is below `EVENT_STOP`, the event triggers `custTimerTask`
(which empties the queue) and `loop` does not return on it. -/
theorem loop_returns_on_stop_value (env : Env) (s s1 : TimerController)
    (pre post : List Event) (e : Event) (ws : List Wake)
    (henv : env.succeeds)
    (hrun : s._stop = false)
    (hpre : loop_for env pre { s with syscalls := s.syscalls + 1 } = some (false, s1))
    (hfd : e.fd = s1._eventfd) :
    (env.EVENT_STOP ≤ s1.eventfd_counter + e.written →
      ∃ s2, loop env (Wake.ready (pre ++ e :: post) :: ws) s = some (true, s2) ∧
        s2.closed = true ∧ s2.fired = s1.fired ∧
        s2._timer_task_heap = s1._timer_task_heap ∧
        s2._timer_task_queue = s1._timer_task_queue) ∧
    (s1.eventfd_counter + e.written < env.EVENT_STOP →
      ∃ s2, custTimerTask env
          { s1 with eventfd_counter := 0, syscalls := s1.syscalls + 1 } = some s2 ∧
        s2._timer_task_queue = [] ∧
        (e.fd ≠ s2._timerfd → loop_event env s1 e = some (false, s2))) := by
  constructor
  · intro hstop
    refine ⟨close { s1 with eventfd_counter := 0, syscalls := s1.syscalls + 1 }, ?_,
      rfl, rfl, rfl, rfl⟩
    have hev : loop_event env s1 e
        = some (true, close { s1 with eventfd_counter := 0, syscalls := s1.syscalls + 1 }) := by
      simp only [loop_event, hfd, if_true, ge_iff_le, hstop]
    have hfor : loop_for env (pre ++ e :: post) { s with syscalls := s.syscalls + 1 }
        = some (true, close { s1 with eventfd_counter := 0, syscalls := s1.syscalls + 1 }) := by
      rw [loop_for_append env (e :: post) pre _ s1 hpre]
      simp only [loop_for, hev]
    rw [loop, if_neg (by rw [hrun]; exact Bool.false_ne_true)]
    simp only [hfor]
  · intro hbelow
    obtain ⟨s2, h2, hq, -, -, -⟩ := custTimerTask_loop_spec env henv _
      { s1 with eventfd_counter := 0, syscalls := s1.syscalls + 1 } (le_refl _)
    refine ⟨s2, h2, hq, ?_⟩
    intro hne2
    have h2b : custTimerTask env
        { s1 with eventfd_counter := 0, syscalls := s1.syscalls + 1 } = some s2 := h2
    simp only [loop_event, hfd, if_true, ge_iff_le, not_le.mpr hbelow, if_false, h2b]
    rw [← hfd, if_neg hne2]

/-- Witness of C13: the sample controller with descriptors 3 and 4; the batch is
a timer event (which fires the task due at 1 s), then the eventfd with 2
written by another thread (the value of `EVENT_STOP` in `Env.const`), then one
more timer event; a further batch follows. -/
theorem loop_returns_on_stop_value_witness :
    ∃ s2, loop (Env.const ⟨9, 0⟩)
        [Wake.ready ([⟨4, 0⟩] ++ ⟨3, 2⟩ :: [⟨4, 0⟩]), Wake.ready [⟨4, 0⟩]]
        { TimerController.sample with _eventfd := 3, _timerfd := 4 } = some (true, s2) ∧
      s2.closed = true ∧ s2.fired = [TimerTask.due 1 1 0] ∧
      s2._timer_task_heap = [TimerTask.due 3 2 0, TimerTask.due 2 3 0] :=
  ((loop_returns_on_stop_value (Env.const ⟨9, 0⟩)
      { TimerController.sample with _eventfd := 3, _timerfd := 4 } _ [⟨4, 0⟩] [⟨4, 0⟩]
      ⟨3, 2⟩ [Wake.ready [⟨4, 0⟩]] (Env.const_succeeds _) rfl rfl rfl).1
      (by decide)).imp
    (fun _ h => ⟨h.1, h.2.1, h.2.2.1.trans rfl, h.2.2.2.1.trans rfl⟩)

/-! ## Claim C12: what becomes of the fired task -/

/-- `addTimerTask` leaves the callback, the interval and the recurrence flag of
the task as they are. -/
theorem addTimerTask_keeps (env : Env) (s : TimerController) (task : TimerTask)
    (r : TimerTask × TimerController) (h : addTimerTask env s task = some r) :
    r.1.fun_ = task.fun_ ∧ r.1.interval = task.interval ∧ r.1.is_cycle = task.is_cycle := by
  by_cases hunset : task.create_time.tv_sec = 0 ∧ task.create_time.tv_nsec = 0
  · cases hclock : env.clock_gettime s.syscalls with
    | none =>
      simp only [addTimerTask, hunset, and_self, if_true, hclock] at h
      exact absurd h (by simp)
    | some now =>
      cases hw : env.eventfd_write (s.syscalls + 1) with
      | false =>
        simp [addTimerTask, addTimerTask_submit, hunset, hclock, hw] at h
      | true =>
        obtain ⟨r2, hr2, ht, -⟩ := addTimerTask_unset env s task now hunset hclock hw
        rw [h] at hr2
        simp only [Option.some.injEq] at hr2
        subst hr2
        rw [ht]
        exact ⟨rfl, rfl, rfl⟩
  · cases hw : env.eventfd_write s.syscalls with
    | false =>
      simp [addTimerTask, addTimerTask_submit, hunset, hw] at h
    | true =>
      obtain ⟨r2, hr2, ht, -⟩ := addTimerTask_set env s task hunset hw
      rw [h] at hr2
      simp only [Option.some.injEq] at hr2
      subst hr2
      rw [ht]
      exact ⟨rfl, rfl, rfl⟩

/-- A drain on a heap in heap order: the queue is emptied into the heap, which
stays in heap order; nothing is fired. -/
theorem custTimerTask_ordered_spec (env : Env) (henv : env.succeeds) :
    ∀ (fuel : Nat) (s : TimerController), s._timer_task_queue.length ≤ fuel →
      s.heap_ordered →
      ∃ s1, custTimerTask_loop env fuel s = some s1 ∧
        s1._timer_task_queue = [] ∧
        s1._timer_task_heap.Perm (s._timer_task_heap ++ s._timer_task_queue) ∧
        s1.fired = s.fired ∧ s1.heap_ordered := by
  intro fuel
  induction fuel with
  | zero =>
    intro s hlen hheap
    have hq : s._timer_task_queue = [] := List.length_eq_zero.mp (by omega)
    exact ⟨s, rfl, hq, by simp [hq], rfl, hheap⟩
  | succ fuel ih =>
    intro s hlen hheap
    cases hq : s._timer_task_queue with
    | nil =>
      refine ⟨s, ?_, hq, by simp [hq], rfl, hheap⟩
      simp only [custTimerTask_loop, hq]
    | cons task rest =>
      obtain ⟨s1, h1, hh1, hq1, -, hf1, -, -⟩ :=
        custTimerTask_insert_spec env henv { s with _timer_task_queue := rest } task
      simp only at hh1 hq1 hf1
      have hv := (heap_ordered_iff s).mp hheap
      obtain ⟨hperm, hpush⟩ := push_heap_spec TimerTaskComp_order s._timer_task_heap task hv
      rw [← hh1] at hperm hpush
      have hlen1 : s1._timer_task_queue.length ≤ fuel := by
        rw [hq1]
        simp only [hq, List.length_cons] at hlen
        omega
      obtain ⟨s2, h2, hq2, hperm2, hf2, hord2⟩ := ih s1 hlen1 ((heap_ordered_iff s1).mpr hpush)
      refine ⟨s2, ?_, hq2, ?_, by rw [hf2, hf1], hord2⟩
      · simp only [custTimerTask_loop, hq, h1]
        exact h2
      · refine hperm2.trans ?_
        rw [hq1]
        refine (hperm.append_right rest).trans ?_
        simp only [List.cons_append]
        exact List.perm_middle.symm

/-- A one-shot task that is neither in the heap nor in the queue is not fired by
any sequence of drains and fires. -/
theorem runSteps_never_fires (env : Env) (henv : env.succeeds) (x : TimerTask)
    (hx : x.is_cycle = false) :
    ∀ (steps : List LoopStep) (s : TimerController), s.heap_ordered →
      x ∉ s._timer_task_heap → x ∉ s._timer_task_queue →
      ∃ s1 fs, runSteps env steps s = some s1 ∧ s1.fired = s.fired ++ fs ∧ x ∉ fs := by
  intro steps
  induction steps with
  | nil =>
    intro s _ _ _
    exact ⟨s, [], rfl, by simp, by simp⟩
  | cons step rest ih =>
    intro s hheap hxh hxq
    cases step with
    | drain =>
      obtain ⟨s1, h1, hq1, hperm, hf1, hord⟩ :=
        custTimerTask_ordered_spec env henv _ s (le_refl _) hheap
      have h1b : custTimerTask env s = some s1 := h1
      have hxh1 : x ∉ s1._timer_task_heap := by
        intro hmem
        rcases List.mem_append.mp (hperm.subset hmem) with h | h
        · exact hxh h
        · exact hxq h
      obtain ⟨s2, fs, h2, hf2, hfs⟩ := ih s1 hord hxh1 (by rw [hq1]; simp)
      refine ⟨s2, fs, ?_, by rw [hf2, hf1], hfs⟩
      simp only [runSteps, h1b]
      exact h2
    | fire =>
      cases hs : s._timer_task_heap with
      | nil =>
        have h1 : execEarliestTimerTask env s = some s := by
          simp only [execEarliestTimerTask, hs]
        obtain ⟨s2, fs, h2, hf2, hfs⟩ := ih s hheap hxh hxq
        refine ⟨s2, fs, ?_, hf2, hfs⟩
        simp only [runSteps, h1]
        exact h2
      | cons front tl =>
        obtain ⟨s1, h1, hf1, hperm, hord, -, -⟩ :=
          execEarliestTimerTask_spec env henv s hheap front tl hs
        obtain ⟨s1b, h1b, -, -, hone, hcyc⟩ :=
          execEarliestTimerTask_exact env henv s front tl hs
        rw [h1] at h1b
        simp only [Option.some.injEq] at h1b
        subst h1b
        have hfront : front ≠ x := by
          intro heq
          apply hxh
          rw [hs, ← heq]
          exact List.mem_cons_self _ _
        have hxh1 : x ∉ s1._timer_task_heap := by
          intro hmem
          exact hxh (hperm.subset (List.mem_cons_of_mem _ hmem))
        have hxq1 : x ∉ s1._timer_task_queue := by
          cases hc : front.is_cycle with
          | false =>
            rw [(hone hc).1]
            exact hxq
          | true =>
            obtain ⟨-, s0, r, hr, hq⟩ := hcyc hc
            rw [hq]
            intro hmem
            rcases List.mem_append.mp hmem with h | h
            · exact hxq h
            · have hxr : x = r.1 := by simpa using h
              have := (addTimerTask_keeps env s0 front r hr).2.2
              rw [← hxr, hx, hc] at this
              exact absurd this (by simp)
        obtain ⟨s2, fs, h2, hf2, hfs⟩ := ih s1 hord hxh1 hxq1
        refine ⟨s2, front :: fs, ?_, ?_, ?_⟩
        · simp only [runSteps, h1]
          exact h2
        · rw [hf2, hf1]
          simp
        · intro hmem
          rcases List.mem_cons.mp hmem with h | h
          · exact hfront h.symm
          · exact hfs h

/-- C12: `execEarliestTimerTask` on a non-empty heap in heap order (the system
calls succeeding) fires the front task and takes exactly that task out of the
heap.  If the task is recurring, the task that `addTimerTask` makes of it (the
same callback, interval and flag, the deadline computed again) is appended to
the submission queue, and nothing is put into the heap or the pool.  If it is
one-shot, the queue is unchanged and the task, reset, is handed to the pool;
when it was in the heap once and not in the queue, it is then in neither, and
no sequence of drains and fires invokes its callback again. -/
theorem fired_task_requeued_or_recycled (env : Env) (s : TimerController)
    (front : TimerTask) (rest : List TimerTask)
    (henv : env.succeeds) (hheap : s.heap_ordered)
    (hs : s._timer_task_heap = front :: rest) :
    ∃ s1, execEarliestTimerTask env s = some s1 ∧
      s1.fired = s.fired ++ [front] ∧
      s._timer_task_heap.Perm (front :: s1._timer_task_heap) ∧
      (front.is_cycle = true →
        s1._timer_task_pool = s._timer_task_pool ∧
        ∃ s0 r, addTimerTask env s0 front = some r ∧
          s1._timer_task_queue = s._timer_task_queue ++ [r.1] ∧
          r.1.fun_ = front.fun_ ∧ r.1.interval = front.interval ∧ r.1.is_cycle = true) ∧
      (front.is_cycle = false →
        s1._timer_task_queue = s._timer_task_queue ∧
        s1._timer_task_pool = s._timer_task_pool ++ [front.reset] ∧
        (front ∉ rest → front ∉ s._timer_task_queue →
          front ∉ s1._timer_task_heap ∧ front ∉ s1._timer_task_queue ∧
          ∀ steps : List LoopStep,
            ∃ s2 fs, runSteps env steps s1 = some s2 ∧ s2.fired = s1.fired ++ fs ∧
              front ∉ fs)) := by
  obtain ⟨s1, h1, hf1, hperm, hord, -, -⟩ :=
    execEarliestTimerTask_spec env henv s hheap front rest hs
  obtain ⟨s1b, h1b, -, -, hone, hcyc⟩ := execEarliestTimerTask_exact env henv s front rest hs
  rw [h1] at h1b
  simp only [Option.some.injEq] at h1b
  subst h1b
  refine ⟨s1, h1, hf1, hperm.symm, ?_, ?_⟩
  · intro hc
    obtain ⟨hp, s0, r, hr, hq⟩ := hcyc hc
    obtain ⟨k1, k2, k3⟩ := addTimerTask_keeps env s0 front r hr
    exact ⟨hp, s0, r, hr, hq, k1, k2, by rw [k3, hc]⟩
  · intro hc
    obtain ⟨hq, hp⟩ := hone hc
    refine ⟨hq, hp, ?_⟩
    intro hnr hnq
    have hxh1 : front ∉ s1._timer_task_heap := by
      intro hmem
      have hcount := hperm.count_eq front
      rw [hs] at hcount
      have h0 : rest.count front = 0 := List.count_eq_zero.mpr hnr
      have h1c : 0 < s1._timer_task_heap.count front := List.count_pos_iff.mpr hmem
      simp only [List.count_cons_self, h0] at hcount
      omega
    have hxq1 : front ∉ s1._timer_task_queue := by rw [hq]; exact hnq
    exact ⟨hxh1, hxq1, fun steps =>
      runSteps_never_fires env henv front hc steps s1 hord hxh1 hxq1⟩

/-- Witness of C12: the sample controller, whose front is a one-shot task, and
the same controller with a recurring 10 ms task in front. -/
theorem fired_task_requeued_or_recycled_witness :
    (∃ s1, execEarliestTimerTask (Env.const ⟨9, 0⟩) TimerController.sample = some s1 ∧
      s1._timer_task_queue = TimerController.sample._timer_task_queue ∧
      s1._timer_task_pool = [(TimerTask.due 1 1 0).reset] ∧
      TimerTask.due 1 1 0 ∉ s1._timer_task_heap ∧
      TimerTask.due 1 1 0 ∉ s1._timer_task_queue ∧
      ∃ s2 fs, runSteps (Env.const ⟨9, 0⟩)
          [LoopStep.drain, LoopStep.fire, LoopStep.fire, LoopStep.fire, LoopStep.fire,
            LoopStep.fire] s1 = some s2 ∧
        s2.fired = s1.fired ++ fs ∧ TimerTask.due 1 1 0 ∉ fs) ∧
    (∃ s1, execEarliestTimerTask (Env.const ⟨9, 0⟩)
        { _timer_task_heap := [⟨some 7, 10, true, ⟨1, 1⟩, ⟨1, 0⟩⟩, TimerTask.due 2 3 0] }
        = some s1 ∧
      s1._timer_task_pool = [] ∧
      ∃ s0 r, addTimerTask (Env.const ⟨9, 0⟩) s0 ⟨some 7, 10, true, ⟨1, 1⟩, ⟨1, 0⟩⟩ = some r ∧
        s1._timer_task_queue = [] ++ [r.1] ∧
        r.1.fun_ = some 7 ∧ r.1.interval = 10 ∧ r.1.is_cycle = true) :=
  ⟨(fired_task_requeued_or_recycled (Env.const ⟨9, 0⟩) TimerController.sample
      (TimerTask.due 1 1 0) [TimerTask.due 2 3 0, TimerTask.due 3 2 0]
      (Env.const_succeeds _) (by decide) rfl).imp
      (fun _ h => ⟨h.1, (h.2.2.2.2 rfl).1, (h.2.2.2.2 rfl).2.1,
        ((h.2.2.2.2 rfl).2.2 (by decide) (by decide)).1,
        ((h.2.2.2.2 rfl).2.2 (by decide) (by decide)).2.1,
        ((h.2.2.2.2 rfl).2.2 (by decide) (by decide)).2.2 _⟩),
    (fired_task_requeued_or_recycled (Env.const ⟨9, 0⟩)
      { _timer_task_heap := [⟨some 7, 10, true, ⟨1, 1⟩, ⟨1, 0⟩⟩, TimerTask.due 2 3 0] }
      ⟨some 7, 10, true, ⟨1, 1⟩, ⟨1, 0⟩⟩ [TimerTask.due 2 3 0]
      (Env.const_succeeds _) (by decide) rfl).imp
      (fun _ h => ⟨h.1, (h.2.2.2.1 rfl).1, (h.2.2.2.1 rfl).2⟩)⟩

/-! ## Claim C14: a one-shot 50 ms task and a recurring 10 ms task -/

theorem push_heap_single {α : Type} [Inhabited α] (comp : α → α → Bool) (a : α) :
    push_heap comp [a] = [a] := rfl

theorem push_heap_pair {α : Type} [Inhabited α] (comp : α → α → Bool) (a b : α) :
    push_heap comp [a, b] = if comp a b = true then [b, a] else [a, b] := by
  by_cases h : comp a b = true
  · simp [push_heap, __push_heap, h]
  · simp [push_heap, __push_heap, h]

theorem pop_heap_single_dropLast {α : Type} [Inhabited α] (comp : α → α → Bool) (a : α) :
    (pop_heap comp [a]).dropLast = [] := rfl

theorem pop_heap_pair_dropLast {α : Type} [Inhabited α] (comp : α → α → Bool) (a b : α) :
    (pop_heap comp [a, b]).dropLast = [b] := by
  simp [pop_heap, __pop_heap, __adjust_heap, __adjust_heap_descend, __push_heap]

/-- For deadlines with the sub-second field within one second, `TimerTaskComp`
compares the absolute times in nanoseconds. -/
theorem TimerTaskComp_eq_true_iff_toNanos (a b : TimerTask)
    (ha : a.expect_time.normalized) (hb : b.expect_time.normalized) :
    TimerTaskComp a b = true ↔ b.expect_time.toNanos < a.expect_time.toNanos := by
  rw [TimerTaskComp_eq_true_iff]
  unfold Timespec.earlier Timespec.toNanos
  unfold Timespec.normalized at ha hb
  omega

/-- A drain puts the queued tasks into the heap one after the other. -/
theorem custTimerTask_exact (env : Env) (henv : env.succeeds) :
    ∀ (fuel : Nat) (s : TimerController), s._timer_task_queue.length ≤ fuel →
      ∃ s1, custTimerTask_loop env fuel s = some s1 ∧
        s1._timer_task_queue = [] ∧
        s1._timer_task_heap = s._timer_task_queue.foldl
          (fun h t => push_heap TimerTaskComp (h ++ [t])) s._timer_task_heap ∧
        s1.fired = s.fired := by
  intro fuel
  induction fuel with
  | zero =>
    intro s hlen
    have hq : s._timer_task_queue = [] := List.length_eq_zero.mp (by omega)
    exact ⟨s, rfl, hq, by simp [hq], rfl⟩
  | succ fuel ih =>
    intro s hlen
    cases hq : s._timer_task_queue with
    | nil =>
      refine ⟨s, ?_, hq, by simp, rfl⟩
      simp only [custTimerTask_loop, hq]
    | cons task rest =>
      obtain ⟨s1, h1, hh1, hq1, -, hf1, -, -⟩ :=
        custTimerTask_insert_spec env henv { s with _timer_task_queue := rest } task
      simp only at hh1 hq1 hf1
      have hlen1 : s1._timer_task_queue.length ≤ fuel := by
        rw [hq1]
        simp only [hq, List.length_cons] at hlen
        omega
      obtain ⟨s2, h2, hq2, hh2, hf2⟩ := ih s1 hlen1
      refine ⟨s2, ?_, hq2, ?_, by rw [hf2, hf1]⟩
      · simp only [custTimerTask_loop, hq, h1]
        exact h2
      · rw [hh2, hq1, hh1]
        rfl

/-- With a set create-time, the task that `addTimerTask` leaves is the task with
the deadline moved on by the interval. -/
theorem addTimerTask_set_task (env : Env) (henv : env.succeeds) (s : TimerController)
    (task : TimerTask) (r : TimerTask × TimerController)
    (hset : ¬ (task.create_time.tv_sec = 0 ∧ task.create_time.tv_nsec = 0))
    (h : addTimerTask env s task = some r) :
    r.1 = { task with
      expect_time := addTimerTask_expect_time task.expect_time task.interval } := by
  obtain ⟨r2, hr2, ht, -⟩ := addTimerTask_set env s task hset (henv _).2.2.2
  rw [h] at hr2
  simp only [Option.some.injEq] at hr2
  subst hr2
  exact ht

/-- A drain followed by a fire, when the drain leaves `front :: rest` in the
heap. -/
theorem drain_fire_round (env : Env) (henv : env.succeeds) (s : TimerController)
    (front : TimerTask) (rest : List TimerTask)
    (hdrain : s._timer_task_queue.foldl (fun h t => push_heap TimerTaskComp (h ++ [t]))
      s._timer_task_heap = front :: rest) :
    ∃ s1, runSteps env [LoopStep.drain, LoopStep.fire] s = some s1 ∧
      s1._timer_task_heap = (pop_heap TimerTaskComp (front :: rest)).dropLast ∧
      s1.fired = s.fired ++ [front] ∧
      (front.is_cycle = false → s1._timer_task_queue = []) ∧
      (front.is_cycle = true →
        ¬ (front.create_time.tv_sec = 0 ∧ front.create_time.tv_nsec = 0) →
        s1._timer_task_queue = [{ front with
          expect_time := addTimerTask_expect_time front.expect_time front.interval }]) := by
  obtain ⟨s1, h1, hq1, hh1, hf1⟩ := custTimerTask_exact env henv _ s (le_refl _)
  have h1b : custTimerTask env s = some s1 := h1
  rw [hdrain] at hh1
  obtain ⟨s2, h2, hh2, hf2, hone, hcyc⟩ :=
    execEarliestTimerTask_exact env henv s1 front rest hh1
  refine ⟨s2, ?_, hh2, by rw [hf2, hf1], ?_, ?_⟩
  · simp only [runSteps, h1b, h2]
  · intro hc
    rw [(hone hc).1, hq1]
  · intro hc hset
    obtain ⟨-, s0, r, hr, hq⟩ := hcyc hc
    rw [hq, hq1, addTimerTask_set_task env henv s0 front r hset hr]
    rfl

/-- Counterexample to C14 as stated: a one-shot 50 ms task (callback 1) and a
recurring 10 ms task (callback 2) are submitted to the empty controller while
the clock reads 100 s 5 ns; the loop thread then drains and fires six times.
The callbacks run in the order 2, 2, 2, 2, 1, 2: the fifth firing of the
recurring task, with deadline 100 s 50 000 005 ns, comes after the firing of
the one-shot task, which has the same deadline. -/
theorem scenario_one_shot_fires_before_fifth :
    ∃ rA rB s,
      addTimerTask (Env.const ⟨100, 5⟩) {} (TimerTask.fresh 1 50 false) = some rA ∧
      addTimerTask (Env.const ⟨100, 5⟩) rA.2 (TimerTask.fresh 2 10 true) = some rB ∧
      runSteps (Env.const ⟨100, 5⟩) LoopStep.six_rounds rB.2 = some s ∧
      s.fired.map (fun t => (t.fun_, t.expect_time)) =
        [(some 2, ⟨100, 10000005⟩), (some 2, ⟨100, 20000005⟩), (some 2, ⟨100, 30000005⟩),
          (some 2, ⟨100, 40000005⟩), (some 1, ⟨100, 50000005⟩),
          (some 2, ⟨100, 50000005⟩)] :=
  ⟨_, _, _, rfl, rfl, rfl, by decide⟩

theorem runSteps_append (env : Env) (l2 : List LoopStep) :
    ∀ (l1 : List LoopStep) (s s1 : TimerController), runSteps env l1 s = some s1 →
      runSteps env (l1 ++ l2) s = runSteps env l2 s1 := by
  intro l1
  induction l1 with
  | nil =>
    intro s s1 h
    simp only [runSteps, Option.some.injEq] at h
    rw [h]
    rfl
  | cons step rest ih =>
    intro s s1 h
    cases step with
    | drain =>
      simp only [runSteps, List.cons_append] at h ⊢
      cases hc : custTimerTask env s with
      | none => rw [hc] at h; exact absurd h (by simp)
      | some s2 =>
        rw [hc] at h
        simp only at h ⊢
        exact ih s2 s1 h
    | fire =>
      simp only [runSteps, List.cons_append] at h ⊢
      cases hc : execEarliestTimerTask env s with
      | none => rw [hc] at h; exact absurd h (by simp)
      | some s2 =>
        rw [hc] at h
        simp only at h ⊢
        exact ih s2 s1 h

/-- A re-submission of a task with a non-negative interval moves a normalized
deadline on by the interval and keeps it normalized. -/
theorem next_spec (t : TimerTask) (hI : 0 ≤ t.interval) (hn : t.expect_time.normalized) :
    t.next.expect_time.toNanos = t.expect_time.toNanos + t.interval * 1000000 ∧
    t.next.expect_time.normalized ∧ t.next.interval = t.interval ∧
    t.next.is_cycle = t.is_cycle ∧ t.next.create_time = t.create_time ∧
    t.next.fun_ = t.fun_ :=
  ⟨expect_time_toNanos _ _ hI hn.1, expect_time_normalized _ _ hI hn.1, rfl, rfl, rfl, rfl⟩

/-- A round in which the drain leaves a recurring task `b` in front of one other
task `a`: `b` is fired and comes back into the queue with its next deadline. -/
theorem round_fires_recurring (env : Env) (henv : env.succeeds) (s : TimerController)
    (a b : TimerTask)
    (hdrain : s._timer_task_queue.foldl (fun h t => push_heap TimerTaskComp (h ++ [t]))
      s._timer_task_heap = [b, a])
    (hc : b.is_cycle = true)
    (hset : ¬ (b.create_time.tv_sec = 0 ∧ b.create_time.tv_nsec = 0)) :
    ∃ s1, runSteps env [LoopStep.drain, LoopStep.fire] s = some s1 ∧
      s1._timer_task_heap = [a] ∧ s1._timer_task_queue = [b.next] ∧
      s1.fired = s.fired ++ [b] := by
  obtain ⟨s1, h1, hh, hf, -, hq⟩ := drain_fire_round env henv s b [a] hdrain
  refine ⟨s1, h1, ?_, hq hc hset, hf⟩
  rw [hh]
  exact pop_heap_pair_dropLast _ _ _

/-- C14 (amended): on a controller with an empty heap and an empty queue, task
`A` (interval 50 ms, one-shot) and then task `B` (interval 10 ms, recurring),
both with an unset create-time, are submitted at the same clock reading `t0`
(`0 <= t0.tv_nsec < 10^9`), and the create-time stored for `B` is not the
unset value.  The loop thread then takes six rounds, each a drain followed by
a fire, with no other submission.  It invokes six callbacks, in this order:
`B` with deadlines `t0 + 10`, `t0 + 20`, `t0 + 30`, `t0 + 40` ms, then `A`,
once, with deadline `t0 + 50` ms, then `B` with deadline `t0 + 50` ms: the
fifth firing of `B` has the same deadline as the firing of `A` and comes
directly after it. -/
theorem scenario_one_shot_and_recurring (env : Env) (s0 : TimerController)
    (A B : TimerTask) (t0 : Timespec) (rA rB : TimerTask × TimerController)
    (henv : env.succeeds)
    (hempty : s0._timer_task_heap = [] ∧ s0._timer_task_queue = [])
    (hA : A.interval = 50 ∧ A.is_cycle = false ∧
      A.create_time.tv_sec = 0 ∧ A.create_time.tv_nsec = 0)
    (hB : B.interval = 10 ∧ B.is_cycle = true ∧
      B.create_time.tv_sec = 0 ∧ B.create_time.tv_nsec = 0)
    (ht0 : 0 ≤ t0.tv_nsec ∧ t0.tv_nsec < 1000000000)
    (hclockA : env.clock_gettime s0.syscalls = some t0)
    (hclockB : env.clock_gettime rA.2.syscalls = some t0)
    (hsubA : addTimerTask env s0 A = some rA)
    (hsubB : addTimerTask env rA.2 B = some rB)
    (hstored : ¬ (rB.1.create_time.tv_sec = 0 ∧ rB.1.create_time.tv_nsec = 0)) :
    ∃ s b1 b2 b3 b4 a b5, runSteps env LoopStep.six_rounds rB.2 = some s ∧
      s.fired = s0.fired ++ [b1, b2, b3, b4, a, b5] ∧
      (b1.fun_ = B.fun_ ∧ b2.fun_ = B.fun_ ∧ b3.fun_ = B.fun_ ∧ b4.fun_ = B.fun_ ∧
        b5.fun_ = B.fun_ ∧ a.fun_ = A.fun_) ∧
      b1.expect_time.toNanos = t0.toNanos + 10 * 1000000 ∧
      b2.expect_time.toNanos = t0.toNanos + 20 * 1000000 ∧
      b3.expect_time.toNanos = t0.toNanos + 30 * 1000000 ∧
      b4.expect_time.toNanos = t0.toNanos + 40 * 1000000 ∧
      a.expect_time.toNanos = t0.toNanos + 50 * 1000000 ∧
      b5.expect_time.toNanos = t0.toNanos + 50 * 1000000 := by
  -- the two submissions
  obtain ⟨r1, hr1, ha, hsa⟩ := addTimerTask_unset env s0 A t0 ⟨hA.2.2.1, hA.2.2.2⟩ hclockA
    (henv _).2.2.2
  rw [hsubA] at hr1
  simp only [Option.some.injEq] at hr1
  subst hr1
  obtain ⟨r2, hr2, hb, hsb⟩ := addTimerTask_unset env rA.2 B t0 ⟨hB.2.2.1, hB.2.2.2⟩ hclockB
    (henv _).2.2.2
  rw [hsubB] at hr2
  simp only [Option.some.injEq] at hr2
  subst hr2
  have hheap0 : rB.2._timer_task_heap = [] := by rw [hsb, hsa]; exact hempty.1
  have hqueue0 : rB.2._timer_task_queue = [rA.1, rB.1] := by
    rw [hsb]
    simp only
    rw [hsa]
    simp only [hempty.2, List.nil_append, List.cons_append]
  have hfired0 : rB.2.fired = s0.fired := by rw [hsb, hsa]
  -- the tasks
  have haI : rA.1.expect_time = addTimerTask_expect_time t0 50 := by rw [ha, hA.1]
  have hbI : rB.1.expect_time = addTimerTask_expect_time t0 10 := by rw [hb, hB.1]
  have haN : rA.1.expect_time.toNanos = t0.toNanos + 50 * 1000000 := by
    rw [haI]; exact expect_time_toNanos t0 50 (by norm_num) ht0.1
  have han : rA.1.expect_time.normalized := by
    rw [haI]; exact expect_time_normalized t0 50 (by norm_num) ht0.1
  have haf : rA.1.fun_ = A.fun_ := by rw [ha]
  have hac : rA.1.is_cycle = false := by rw [ha]; exact hA.2.1
  have hb1 : rB.1.expect_time.toNanos = t0.toNanos + 10 * 1000000 ∧
      rB.1.expect_time.normalized ∧ rB.1.interval = 10 ∧ rB.1.is_cycle = true ∧
      rB.1.create_time = rB.1.create_time ∧ rB.1.fun_ = B.fun_ := by
    refine ⟨?_, ?_, by rw [hb]; exact hB.1, by rw [hb]; exact hB.2.1, rfl, by rw [hb]⟩
    · rw [hbI]; exact expect_time_toNanos t0 10 (by norm_num) ht0.1
    · rw [hbI]; exact expect_time_normalized t0 10 (by norm_num) ht0.1
  have step : ∀ (b : TimerTask) (k : Int),
      (b.expect_time.toNanos = t0.toNanos + k ∧ b.expect_time.normalized ∧
        b.interval = 10 ∧ b.is_cycle = true ∧ b.create_time = rB.1.create_time ∧
        b.fun_ = B.fun_) →
      (b.next.expect_time.toNanos = t0.toNanos + (k + 10 * 1000000) ∧
        b.next.expect_time.normalized ∧ b.next.interval = 10 ∧ b.next.is_cycle = true ∧
        b.next.create_time = rB.1.create_time ∧ b.next.fun_ = B.fun_) := by
    intro b k ⟨h1, h2, h3, h4, h5, h6⟩
    obtain ⟨n1, n2, n3, n4, n5, n6⟩ := next_spec b (by rw [h3]; norm_num) h2
    refine ⟨?_, n2, by rw [n3, h3], by rw [n4, h4], by rw [n5, h5], by rw [n6, h6]⟩
    rw [n1, h1, h3]
    ring
  have hb2 := step rB.1 _ hb1
  have hb3 := step _ _ hb2
  have hb4 := step _ _ hb3
  have hb5 := step _ _ hb4
  have hset : ∀ b : TimerTask, b.create_time = rB.1.create_time →
      ¬ (b.create_time.tv_sec = 0 ∧ b.create_time.tv_nsec = 0) := by
    intro b h
    rw [h]
    exact hstored
  have hlater : ∀ (b : TimerTask) (k : Int), k < 50 * 1000000 →
      b.expect_time.toNanos = t0.toNanos + k → b.expect_time.normalized →
      TimerTaskComp rA.1 b = true := by
    intro b k hk h1 h2
    rw [TimerTaskComp_eq_true_iff_toNanos _ _ han h2, h1, haN]
    omega
  have hc1 := hlater rB.1 _ (by norm_num) hb1.1 hb1.2.1
  have hc2 := hlater _ _ (by norm_num) hb2.1 hb2.2.1
  have hc3 := hlater _ _ (by norm_num) hb3.1 hb3.2.1
  have hc4 := hlater _ _ (by norm_num) hb4.1 hb4.2.1
  have hc5 : ¬ TimerTaskComp rA.1 rB.1.next.next.next.next = true := by
    rw [TimerTaskComp_eq_true_iff_toNanos _ _ han hb5.2.1, hb5.1, haN]
    omega
  -- round 1
  obtain ⟨s1, hrun1, hh1, hq1, hf1⟩ := round_fires_recurring env henv rB.2 rA.1 rB.1
    (by rw [hheap0, hqueue0]
        simp only [List.foldl, List.nil_append, push_heap_single, List.cons_append,
          push_heap_pair, hc1, if_true])
    hb1.2.2.2.1 (hset _ rfl)
  -- rounds 2 to 4
  obtain ⟨s2, hrun2, hh2, hq2, hf2⟩ := round_fires_recurring env henv s1 rA.1 rB.1.next
    (by rw [hh1, hq1]
        simp only [List.foldl, List.cons_append, List.nil_append, push_heap_pair, hc2, if_true])
    hb2.2.2.2.1 (hset _ hb2.2.2.2.2.1)
  obtain ⟨s3, hrun3, hh3, hq3, hf3⟩ := round_fires_recurring env henv s2 rA.1 rB.1.next.next
    (by rw [hh2, hq2]
        simp only [List.foldl, List.cons_append, List.nil_append, push_heap_pair, hc3, if_true])
    hb3.2.2.2.1 (hset _ hb3.2.2.2.2.1)
  obtain ⟨s4, hrun4, hh4, hq4, hf4⟩ :=
    round_fires_recurring env henv s3 rA.1 rB.1.next.next.next
    (by rw [hh3, hq3]
        simp only [List.foldl, List.cons_append, List.nil_append, push_heap_pair, hc4, if_true])
    hb4.2.2.2.1 (hset _ hb4.2.2.2.2.1)
  -- round 5: the tie
  obtain ⟨s5, hrun5, hh5, hf5, hq5, -⟩ := drain_fire_round env henv s4 rA.1
    [rB.1.next.next.next.next]
    (by rw [hh4, hq4]
        simp only [List.foldl, List.cons_append, List.nil_append, push_heap_pair, hc5,
          Bool.false_eq_true, if_false])
  rw [pop_heap_pair_dropLast] at hh5
  have hq5b := hq5 hac
  -- round 6
  obtain ⟨s6, hrun6, -, hf6, -, -⟩ := drain_fire_round env henv s5
    rB.1.next.next.next.next []
    (by rw [hh5, hq5b]
        simp only [List.foldl])
  refine ⟨s6, rB.1, rB.1.next, rB.1.next.next, rB.1.next.next.next, rA.1,
    rB.1.next.next.next.next, ?_, ?_,
    ⟨hb1.2.2.2.2.2, hb2.2.2.2.2.2, hb3.2.2.2.2.2, hb4.2.2.2.2.2, hb5.2.2.2.2.2, haf⟩,
    hb1.1, ?_, ?_, ?_, haN, ?_⟩
  · have hsplit : LoopStep.six_rounds =
        [LoopStep.drain, LoopStep.fire] ++ ([LoopStep.drain, LoopStep.fire] ++
          ([LoopStep.drain, LoopStep.fire] ++ ([LoopStep.drain, LoopStep.fire] ++
            ([LoopStep.drain, LoopStep.fire] ++ [LoopStep.drain, LoopStep.fire])))) := rfl
    rw [hsplit, runSteps_append env _ _ _ _ hrun1, runSteps_append env _ _ _ _ hrun2,
      runSteps_append env _ _ _ _ hrun3, runSteps_append env _ _ _ _ hrun4,
      runSteps_append env _ _ _ _ hrun5]
    exact hrun6
  · rw [hf6, hf5, hf4, hf3, hf2, hf1, hfired0]
    simp
  · rw [hb2.1]; ring
  · rw [hb3.1]; ring
  · rw [hb4.1]; ring
  · rw [hb5.1]; ring

/-- Witness of C14 (amended): callbacks 1 (one-shot, 50 ms) and 2 (recurring,
10 ms) submitted to the controller as constructed while the clock reads
100 s 5 ns. -/
theorem scenario_one_shot_and_recurring_witness :
    ∃ s b1 b2 b3 b4 a b5,
      runSteps (Env.const ⟨100, 5⟩) LoopStep.six_rounds
        { _timer_task_queue :=
            [⟨some 1, 50, false, ⟨5, 5⟩, ⟨100, 50000005⟩⟩,
              ⟨some 2, 10, true, ⟨5, 5⟩, ⟨100, 10000005⟩⟩]
          eventfd_counter := 2
          syscalls := 4 } = some s ∧
      s.fired = [] ++ [b1, b2, b3, b4, a, b5] ∧
      (b1.fun_ = some 2 ∧ b2.fun_ = some 2 ∧ b3.fun_ = some 2 ∧ b4.fun_ = some 2 ∧
        b5.fun_ = some 2 ∧ a.fun_ = some 1) ∧
      b1.expect_time.toNanos = Timespec.toNanos ⟨100, 5⟩ + 10 * 1000000 ∧
      b2.expect_time.toNanos = Timespec.toNanos ⟨100, 5⟩ + 20 * 1000000 ∧
      b3.expect_time.toNanos = Timespec.toNanos ⟨100, 5⟩ + 30 * 1000000 ∧
      b4.expect_time.toNanos = Timespec.toNanos ⟨100, 5⟩ + 40 * 1000000 ∧
      a.expect_time.toNanos = Timespec.toNanos ⟨100, 5⟩ + 50 * 1000000 ∧
      b5.expect_time.toNanos = Timespec.toNanos ⟨100, 5⟩ + 50 * 1000000 :=
  scenario_one_shot_and_recurring (Env.const ⟨100, 5⟩) {} (TimerTask.fresh 1 50 false)
    (TimerTask.fresh 2 10 true) ⟨100, 5⟩
    (⟨some 1, 50, false, ⟨5, 5⟩, ⟨100, 50000005⟩⟩,
      { _timer_task_queue := [⟨some 1, 50, false, ⟨5, 5⟩, ⟨100, 50000005⟩⟩]
        eventfd_counter := 1
        syscalls := 2 })
    (⟨some 2, 10, true, ⟨5, 5⟩, ⟨100, 10000005⟩⟩,
      { _timer_task_queue :=
          [⟨some 1, 50, false, ⟨5, 5⟩, ⟨100, 50000005⟩⟩,
            ⟨some 2, 10, true, ⟨5, 5⟩, ⟨100, 10000005⟩⟩]
        eventfd_counter := 2
        syscalls := 4 })
    (Env.const_succeeds _) ⟨rfl, rfl⟩ ⟨rfl, rfl, rfl, rfl⟩ ⟨rfl, rfl, rfl, rfl⟩
    (by decide) rfl rfl rfl rfl (by decide)

end StemCell
